import Mathlib

/-!
# GyAi firmware: command channel and incremental render engine

A shallow embedding of `BluetoothModule.cpp`, `TFTDisplay.cpp` and
`DHT22Sensor.cpp` (directory `HardWare/Arduino_Code/main`).

Modelling conventions

* An Arduino `String` is a finite sequence of characters, `List Char`
  (heap exhaustion inside `String` is not modelled).
* The `SoftwareSerial` transport behind `btSerial` is a pair of queues: `rx`,
  the bytes `available()` / `read()` will deliver, oldest first, and `tx`, the
  record of `println` / `flush` calls made on it.
* The `Adafruit_ST7735` peripheral behind `tft` is the record of the drawing
  primitives issued to it, oldest first.
* A C++ `float` value is a rational number (`ℚ`); the binary32 values are the
  rationals `isF32` holds of. Arithmetic on `float` (and on `double`, which
  has 32 bits on the AVR target) rounds its exact result with `round32`, to
  nearest with ties to even; comparisons are exact. Infinities and NaN are
  outside the model, except for the raw sensor readings of `DHT22Sensor`,
  the one place where the code tests for NaN: they are `RawFloat`, NaN or a
  rational.
-/

namespace GyAi

/-! ## Arduino `String` -/

/-- An Arduino `String`: the sequence of its characters. -/
abbrev Str := List Char

/-- The C library `isspace` in the "C" locale: space, `\t`, `\n`, `\v`, `\f`, `\r`. -/
def isspace (c : Char) : Bool :=
  c == ' ' || c == '\t' || c == '\n' || c == '\x0b' || c == '\x0c' || c == '\r'

/-- Arduino `String::trim`: skip the leading `isspace` characters, then step
back from the end over the trailing ones, and keep what lies between. -/
def trim (s : Str) : Str :=
  ((s.dropWhile isspace).reverse.dropWhile isspace).reverse

/-- Decimal numeral of a natural number, most significant digit first. -/
def decimal (n : Nat) : Str := Nat.toDigits 10 n

/-- The numeral `s` padded on the left with `fill` up to `width` characters. -/
def padLeft (fill : Char) (width : Nat) (s : Str) : Str :=
  List.replicate (width - s.length) fill ++ s

/-- The avr-libc `dtostrf(val, width, prec, buf)` on finite values: fixed
notation, `prec` digits after the point, rounded to the nearest (a tie goes
away from zero), a leading `-` for a negative value, right-justified in
`width` columns. -/
def dtostrf (val : ℚ) (width prec : Nat) : Str :=
  let scaled : Nat := ⌊|val| * 10 ^ prec + 1 / 2⌋₊
  let sign : Str := if val < 0 then ['-'] else []
  let point : Str :=
    if prec > 0 then '.' :: padLeft '0' prec (decimal (scaled % 10 ^ prec)) else []
  padLeft ' ' width (sign ++ decimal (scaled / 10 ^ prec) ++ point)

/-- The Arduino constructor `String(float value, unsigned char decimalPlaces)`,
which is `dtostrf(value, decimalPlaces + 2, decimalPlaces, buf)`. -/
def floatString (value : ℚ) (decimalPlaces : Nat) : Str :=
  dtostrf value (decimalPlaces + 2) decimalPlaces

/-! ## `float` arithmetic -/

/-- Round a non-negative rational to the nearest natural number; a tie goes to
the even neighbour. -/
def roundEven (y : ℚ) : ℕ :=
  let f := ⌊y⌋₊
  if y - f < 1 / 2 then f
  else if 1 / 2 < y - f then f + 1
  else if f % 2 = 0 then f else f + 1

/-- The exponent of the unit in the last place of binary32 at the magnitude
`x > 0`: 24 significant bits above `2 ^ (-126)`, the fixed exponent `-149` of the
subnormal numbers below. -/
def ulpExp (x : ℚ) : ℤ := max (Int.log 2 x) (-126) - 23

/-- Rounding of a magnitude `x ≥ 0` to binary32, to nearest, ties to even. -/
def roundMag (x : ℚ) : ℚ := (roundEven (x / 2 ^ ulpExp x) : ℚ) * 2 ^ ulpExp x

/-- IEEE 754 binary32 rounding (to nearest, ties to even) of the exact result of
an operation; overflow to infinity is outside the model. -/
def round32 (x : ℚ) : ℚ := if x < 0 then -roundMag (-x) else roundMag x

/-- The rational `x` is a binary32 value: rounding leaves it alone and it is
below the overflow threshold. -/
def isF32 (x : ℚ) : Prop := round32 x = x ∧ |x| < 2 ^ 128

/-- Whether a rational is a binary32 value is decided by evaluation. -/
instance isF32.decidable (x : ℚ) : Decidable (isF32 x) :=
  inferInstanceAs (Decidable (round32 x = x ∧ |x| < 2 ^ 128))

/-- The `float` sum `a + b`. -/
def fadd (a b : ℚ) : ℚ := round32 (a + b)

/-- The `float` difference `a - b`. -/
def fsub (a b : ℚ) : ℚ := round32 (a - b)

/-- The `float` product `a * b`. -/
def fmul (a b : ℚ) : ℚ := round32 (a * b)

/-- The `float` quotient `a / b`. -/
def fdiv (a b : ℚ) : ℚ := round32 (a / b)

/-! ## `BluetoothModule` -/

/-- One call made on the transmit side of the serial transport. -/
inductive SerialOut where
  | println (line : Str)
  | flush
  deriving DecidableEq, Repr

/-- The fields of `class BluetoothModule`; `rx` and `tx` stand for `*btSerial`. -/
structure BluetoothModule where
  rx : Str
  tx : List SerialOut
  receivedCommand : Str
  isConnected : Bool
  deriving DecidableEq, Repr

namespace BluetoothModule

/-- The constructor: a transport with nothing received or sent, an empty
`receivedCommand` (the default `String`), `isConnected = false`. -/
def fresh : BluetoothModule :=
  { rx := [], tx := [], receivedCommand := [], isConnected := false }

/-- Environment step: `bytes` arrive on the transport and queue up behind the
bytes not read yet. -/
def feed (m : BluetoothModule) (bytes : Str) : BluetoothModule :=
  { m with rx := m.rx ++ bytes }

/-- The `while (btSerial->available())` loop of `checkCommand`, by recursion on
the bytes still to read. Returns the result, the unread bytes and
`receivedCommand`. -/
def checkCommandLoop : Str → Str → Bool × Str × Str
  | [], receivedCommand => (false, [], receivedCommand)
  | c :: rest, receivedCommand =>
    if c = '\n' then
      let trimmed := trim receivedCommand
      if trimmed.length > 0 then
        (true, rest, trimmed)
      else
        checkCommandLoop rest []
    else
      checkCommandLoop rest (receivedCommand ++ [c])

/-- `bool BluetoothModule::checkCommand()`. -/
def checkCommand (m : BluetoothModule) : Bool × BluetoothModule :=
  let r := checkCommandLoop m.rx m.receivedCommand
  (r.1, { m with rx := r.2.1, receivedCommand := r.2.2 })

/-- `String BluetoothModule::getCommand()`. -/
def getCommand (m : BluetoothModule) : Str × BluetoothModule :=
  (m.receivedCommand, m)

/-- `void BluetoothModule::sendData(String data)`; `btSerial` is the transport
allocated by the constructor, so the `if (btSerial)` branch is the one taken. -/
def sendDataString (m : BluetoothModule) (data : Str) : BluetoothModule :=
  { m with tx := m.tx ++ [SerialOut.println data, SerialOut.flush] }

/-- `void BluetoothModule::sendData(float temperature, float humidity)`. -/
def sendData (m : BluetoothModule) (temperature humidity : ℚ) : BluetoothModule :=
  let data := "D:".toList ++ floatString temperature 1 ++ ",".toList ++ floatString humidity 1
  sendDataString m data

/-- `void BluetoothModule::sendResponse(String response)`. -/
def sendResponse (m : BluetoothModule) (response : Str) : BluetoothModule :=
  { m with tx := m.tx ++ [SerialOut.println ("RESP:".toList ++ response), SerialOut.flush] }

/-- `void BluetoothModule::begin()`. -/
def begin (m : BluetoothModule) : BluetoothModule :=
  sendResponse m "READY".toList

/-- `bool BluetoothModule::connectionStatus()`. -/
def connectionStatus (m : BluetoothModule) : Bool × BluetoothModule :=
  (m.isConnected, m)

/-- `void BluetoothModule::updateConnectionStatus(bool status)`. -/
def updateConnectionStatus (m : BluetoothModule) (status : Bool) : BluetoothModule :=
  let m1 := { m with isConnected := status }
  if status then
    sendResponse m1 "CONNECTED".toList
  else
    sendResponse m1 "DISCONNECTED".toList

/-- Feeding chunk after chunk, one `checkCommand()` per chunk: the result and
the module after each call, in call order. -/
def pollChunks : BluetoothModule → List Str → List (Bool × BluetoothModule)
  | _, [] => []
  | m, chunk :: chunks =>
    let r := checkCommand (feed m chunk)
    r :: pollChunks r.2 chunks

/-- One step in the life of the module: bytes arriving on the transport, or a
call of one of the public methods. -/
inductive Action where
  | arrive (bytes : Str)
  | begin
  | sendDataString (data : Str)
  | sendData (temperature humidity : ℚ)
  | checkCommand
  | getCommand
  | sendResponse (response : Str)
  | connectionStatus
  | updateConnectionStatus (status : Bool)

/-- The module after one step. -/
def step (m : BluetoothModule) : Action → BluetoothModule
  | Action.arrive bytes => feed m bytes
  | Action.begin => begin m
  | Action.sendDataString data => sendDataString m data
  | Action.sendData temperature humidity => sendData m temperature humidity
  | Action.checkCommand => (checkCommand m).2
  | Action.getCommand => (getCommand m).2
  | Action.sendResponse response => sendResponse m response
  | Action.connectionStatus => (connectionStatus m).2
  | Action.updateConnectionStatus status => updateConnectionStatus m status

/-- The module after a sequence of steps, first step first. -/
def run (m : BluetoothModule) (steps : List Action) : BluetoothModule :=
  steps.foldl step m

end BluetoothModule

/-! ## The `Adafruit_ST7735` peripheral -/

/-- A 16-bit RGB565 colour. -/
abbrev Color := Nat

/-- `ST7735_BLACK`. -/
def ST7735_BLACK : Color := 0x0000
/-- `ST7735_WHITE`. -/
def ST7735_WHITE : Color := 0xFFFF
/-- `ST7735_RED`. -/
def ST7735_RED : Color := 0xF800
/-- `ST7735_BLUE`. -/
def ST7735_BLUE : Color := 0x001F

/-- One call made on `tft`. `print` is `print(const char*)` / `print(String)`,
`printFloat` is `print(float, int)`. -/
inductive Prim where
  | initR
  | setRotation (r : Nat)
  | fillScreen (color : Color)
  | setTextWrap (w : Bool)
  | setCursor (x y : Int)
  | setTextColor (c : Color)
  | setTextSize (s : Nat)
  | print (text : Str)
  | println (text : Str)
  | printFloat (value : ℚ) (digits : Nat)
  | fillRect (x y w h : Int) (color : Color)
  deriving DecidableEq, Repr

/-- A pixel rectangle: columns `x .. x + w - 1`, rows `y .. y + h - 1`. -/
structure Rect where
  x : Int
  y : Int
  w : Int
  h : Int
  deriving DecidableEq, Repr

/-- The two rectangles have a pixel in common. -/
def Rect.meets (a b : Rect) : Bool :=
  decide (a.x < b.x + b.w ∧ b.x < a.x + a.w ∧ a.y < b.y + b.h ∧ b.y < a.y + a.h ∧
    0 < a.w ∧ 0 < a.h ∧ 0 < b.w ∧ 0 < b.h)

/-- Every pixel of `b` is a pixel of `a`. -/
def Rect.covers (a b : Rect) : Bool :=
  decide (a.x ≤ b.x ∧ b.x + b.w ≤ a.x + a.w ∧ a.y ≤ b.y ∧ b.y + b.h ≤ a.y + a.h)

/-- The part of the `Adafruit_GFX` state that decides where text lands: the
panel size in the current rotation, the text cursor, the text magnification
(`textsize_x = textsize_y`) and the wrap flag. -/
structure Gfx where
  width : Int
  height : Int
  cursor_x : Int
  cursor_y : Int
  textsize : Nat
  wrap : Bool
  deriving DecidableEq, Repr

/-- The rows of its 8-row cell that the glyph of `c` reaches in the built-in
font (`glcdfont.c`, one byte per column, bit `i` for row `i`): the bitmaps of
the digits, of `-` and of `.` leave the eighth row empty (each of their column
bytes is below `0x80`); any other character is given the whole cell. -/
def glyphRows (c : Char) : Nat :=
  if c.isDigit || c == '-' || c == '.' then 7 else 8

/-- `Adafruit_GFX::write(uint8_t c)` with the built-in 6x8 font: the state after
the character and the rectangle its glyph is drawn in, if any (the text
background is transparent: after `setTextColor(c)` only the glyph's own
pixels are written). -/
def Gfx.write (g : Gfx) (c : Char) : Gfx × List Rect :=
  if c = '\n' then
    ({ g with cursor_x := 0, cursor_y := g.cursor_y + g.textsize * 8 }, [])
  else if c ≠ '\r' then
    let g1 :=
      if g.wrap ∧ g.cursor_x + g.textsize * 6 > g.width then
        { g with cursor_x := 0, cursor_y := g.cursor_y + g.textsize * 8 }
      else g
    ({ g1 with cursor_x := g1.cursor_x + g1.textsize * 6 },
      [{ x := g1.cursor_x, y := g1.cursor_y, w := g1.textsize * 6,
         h := g1.textsize * glyphRows c }])
  else (g, [])

/-- The `Adafruit_GFX` constructor on the 128x160 panel: cursor at the origin,
text size 1, wrapping on. -/
def Gfx.initial : Gfx :=
  { width := 128, height := 160, cursor_x := 0, cursor_y := 0, textsize := 1, wrap := true }

/-- `Print::print(const char*)`: `write` every character in turn. -/
def Gfx.writeStr : Gfx → Str → Gfx × List Rect
  | g, [] => (g, [])
  | g, c :: cs =>
    let r1 := g.write c
    let r2 := Gfx.writeStr r1.1 cs
    (r2.1, r1.2 ++ r2.2)

/-- The digit loop of `Print::printFloat`: `remainder *= 10.0`, the digit
`(unsigned int)remainder` is printed, `remainder -= toPrint`. -/
def printFloatDigits : ℚ → Nat → Str
  | _, 0 => []
  | remainder, digits + 1 =>
    let remainder := fmul remainder 10
    let toPrint : Nat := ⌊remainder⌋₊
    decimal toPrint ++ printFloatDigits (fsub remainder (round32 toPrint)) digits

/-- The rounding term of `Print::printFloat`: `0.5`, divided by `10.0` once
for each digit. -/
def printFloatRounding : Nat → ℚ
  | 0 => 1 / 2
  | digits + 1 => fdiv (printFloatRounding digits) 10

/-- The text `Print::printFloat(double number, uint8_t digits)` writes for a
finite `number`: the overflow tests, the sign, `number += rounding`, the integer
part `(unsigned long)number`, the point and the digits of the remainder, every
operation rounded to binary32. -/
def printFloatText (number : ℚ) (digits : Nat) : Str :=
  if number > 4294967040 then "ovf".toList
  else if number < -4294967040 then "ovf".toList
  else
    let sign : Str := if number < 0 then ['-'] else []
    let number := if number < 0 then -number else number
    let rounding : ℚ := printFloatRounding digits
    let number := fadd number rounding
    let int_part : Nat := ⌊number⌋₊
    let remainder := fsub number (round32 int_part)
    sign ++ decimal int_part ++ (if digits > 0 then ['.'] else []) ++
      printFloatDigits remainder digits

/-- The effect of one primitive: the next text state and the rectangles inside
which it may change pixels (a fill changes all of its rectangle, a character
changes pixels of the rectangle of its glyph only). -/
def Gfx.step (g : Gfx) : Prim → Gfx × List Rect
  | Prim.initR => ({ g with width := 128, height := 160 }, [])
  | Prim.setRotation r =>
    (if r % 2 = 0 then { g with width := 128, height := 160 }
      else { g with width := 160, height := 128 }, [])
  | Prim.fillScreen _ => (g, [{ x := 0, y := 0, w := g.width, h := g.height }])
  | Prim.setTextWrap w => ({ g with wrap := w }, [])
  | Prim.setCursor x y => ({ g with cursor_x := x, cursor_y := y }, [])
  | Prim.setTextColor _ => (g, [])
  | Prim.setTextSize s => ({ g with textsize := if s > 0 then s else 1 }, [])
  | Prim.print text => g.writeStr text
  | Prim.println text => g.writeStr (text ++ ['\r', '\n'])
  | Prim.printFloat value digits => g.writeStr (printFloatText value digits)
  | Prim.fillRect x y w h _ => (g, [{ x := x, y := y, w := w, h := h }])

/-- The rectangles a sequence of primitives may paint into, starting from the
text state `g`. -/
def Gfx.painted : Gfx → List Prim → List Rect
  | _, [] => []
  | g, p :: ps => (g.step p).2 ++ Gfx.painted (g.step p).1 ps

/-- The text state after a sequence of primitives, starting from `g`. -/
def Gfx.after (g : Gfx) (ps : List Prim) : Gfx :=
  ps.foldl (fun s p => (s.step p).1) g

/-- Some primitive of the sequence may paint a pixel of `region`. -/
def Gfx.paintsOver (g : Gfx) (ps : List Prim) (region : Rect) : Bool :=
  (g.painted ps).any (fun r => r.meets region)

/-! ## `TFTDisplay` -/

/-- The fields of `class TFTDisplay`; `tft` is the record of the calls made on
`*tft`. -/
structure TFTDisplay where
  tft : List Prim
  tempThresholdMin : ℚ
  tempThresholdMax : ℚ
  humThresholdMin : ℚ
  humThresholdMax : ℚ
  showThresholds : Bool
  lastTemperature : ℚ
  lastHumidity : ℚ
  deriving DecidableEq, Repr

/-- The Arduino macro `abs(x)`, `((x)>0?(x):-(x))`, on a `float`. -/
def abs (x : ℚ) : ℚ := if x > 0 then x else -x

namespace TFTDisplay

/-- The constructor, with the default member initialisers of `TFTDisplay.h`. -/
def fresh : TFTDisplay :=
  { tft := [], tempThresholdMin := 18, tempThresholdMax := 30, humThresholdMin := 30,
    humThresholdMax := 80, showThresholds := false, lastTemperature := -100,
    lastHumidity := -100 }

/-- One call `tft->p`. -/
def call (d : TFTDisplay) (p : Prim) : TFTDisplay :=
  { d with tft := d.tft ++ [p] }

/-- The primitives issued between the state `before` and the later state `after`. -/
def issued (before after : TFTDisplay) : List Prim :=
  after.tft.drop before.tft.length

/-- `void TFTDisplay::begin()`. -/
def begin (d : TFTDisplay) : TFTDisplay :=
  let d := d.call Prim.initR
  let d := d.call (Prim.setRotation 3)
  let d := d.call (Prim.fillScreen ST7735_BLACK)
  let d := d.call (Prim.setTextWrap false)
  let d := d.call (Prim.setCursor 10 50)
  let d := d.call (Prim.setTextColor ST7735_WHITE)
  let d := d.call (Prim.setTextSize 1)
  d.call (Prim.println "Initializing...".toList)

/-- `void TFTDisplay::clearScreen()`. -/
def clearScreen (d : TFTDisplay) : TFTDisplay :=
  d.call (Prim.fillScreen ST7735_BLACK)

/-- `void TFTDisplay::clearDataArea()`. -/
def clearDataArea (d : TFTDisplay) : TFTDisplay :=
  d.call (Prim.fillRect 0 20 160 120 ST7735_BLACK)

/-- `void TFTDisplay::displayStaticElements()`. -/
def displayStaticElements (d : TFTDisplay) : TFTDisplay :=
  let d := d.clearDataArea
  let d := d.call (Prim.setTextColor ST7735_WHITE)
  let d := d.call (Prim.setTextSize 1)
  let d := d.call (Prim.setCursor 10 30)
  let d := d.call (Prim.print "Tem:".toList)
  let d := d.call (Prim.setCursor 10 80)
  let d := d.call (Prim.print "Hum:".toList)
  let d := d.call (Prim.setCursor 100 50)
  let d := d.call (Prim.setTextSize 2)
  let d := d.call (Prim.print "C".toList)
  let d := d.call (Prim.setCursor 100 100)
  let d := d.call (Prim.setTextSize 2)
  d.call (Prim.print "%".toList)

/-- `void TFTDisplay::updateTemperature(float temperature)`: the deadband test
`abs(temperature - lastTemperature) < 0.1` takes the `float` difference and
compares it with the binary32 value of `0.1`. -/
def updateTemperature (d : TFTDisplay) (temperature : ℚ) : TFTDisplay :=
  if abs (fsub temperature d.lastTemperature) < round32 0.1 then
    d
  else
    let d := d.call (Prim.setTextSize 2)
    let d :=
      if temperature < d.tempThresholdMin ∨ temperature > d.tempThresholdMax then
        d.call (Prim.setTextColor ST7735_RED)
      else
        d.call (Prim.setTextColor ST7735_WHITE)
    let d := d.call (Prim.fillRect 40 45 60 20 ST7735_BLACK)
    let d := d.call (Prim.setCursor 40 50)
    d.call (Prim.printFloat temperature 1)

/-- `void TFTDisplay::updateHumidity(float humidity)`, with the same deadband
test on `humidity - lastHumidity`. -/
def updateHumidity (d : TFTDisplay) (humidity : ℚ) : TFTDisplay :=
  if abs (fsub humidity d.lastHumidity) < round32 0.1 then
    d
  else
    let d := d.call (Prim.setTextSize 2)
    let d :=
      if humidity < d.humThresholdMin ∨ humidity > d.humThresholdMax then
        d.call (Prim.setTextColor ST7735_RED)
      else
        d.call (Prim.setTextColor ST7735_WHITE)
    let d := d.call (Prim.fillRect 40 95 60 20 ST7735_BLACK)
    let d := d.call (Prim.setCursor 40 100)
    d.call (Prim.printFloat humidity 1)

/-- `void TFTDisplay::displayData(float temperature, float humidity)`. -/
def displayData (d : TFTDisplay) (temperature humidity : ℚ) : TFTDisplay :=
  let d := if d.lastTemperature < -50 then d.displayStaticElements else d
  let d := d.updateTemperature temperature
  let d := d.updateHumidity humidity
  { d with lastTemperature := temperature, lastHumidity := humidity }

/-- `void TFTDisplay::displayMessage(String message, uint16_t color)`. -/
def displayMessage (d : TFTDisplay) (message : Str) (color : Color) : TFTDisplay :=
  let d := d.call (Prim.fillRect 0 60 160 20 ST7735_BLACK)
  let d := d.call (Prim.setCursor 5 70)
  let d := d.call (Prim.setTextColor color)
  let d := d.call (Prim.setTextSize 1)
  d.call (Prim.print message)

/-- `void TFTDisplay::toggleThresholdDisplay()`. -/
def toggleThresholdDisplay (d : TFTDisplay) : TFTDisplay :=
  { d with showThresholds := !d.showThresholds }

/-- `void TFTDisplay::drawHeader()`. -/
def drawHeader (d : TFTDisplay) : TFTDisplay :=
  let d := d.call (Prim.fillRect 0 0 160 20 ST7735_BLUE)
  let d := d.call (Prim.setCursor 30 5)
  let d := d.call (Prim.setTextColor ST7735_WHITE)
  let d := d.call (Prim.setTextSize 1)
  d.call (Prim.print "ENV MONITOR".toList)

/-- `void TFTDisplay::drawFooter(String status)`. -/
def drawFooter (d : TFTDisplay) (status : Str) : TFTDisplay :=
  let d := d.call (Prim.fillRect 0 140 160 20 ST7735_BLUE)
  let d := d.call (Prim.setCursor 5 145)
  let d := d.call (Prim.setTextColor ST7735_WHITE)
  let d := d.call (Prim.setTextSize 1)
  d.call (Prim.print status)

/-- The temperature value box, `fillRect(40, 45, 60, 20, ...)`: x 40..99, y 45..64. -/
def temperatureRegion : Rect := { x := 40, y := 45, w := 60, h := 20 }

/-- The humidity value box, `fillRect(40, 95, 60, 20, ...)`: x 40..99, y 95..114. -/
def humidityRegion : Rect := { x := 40, y := 95, w := 60, h := 20 }

/-- The primitives of `displayStaticElements`, in order. -/
def staticPrims : List Prim :=
  [Prim.fillRect 0 20 160 120 ST7735_BLACK, Prim.setTextColor ST7735_WHITE, Prim.setTextSize 1,
   Prim.setCursor 10 30, Prim.print "Tem:".toList, Prim.setCursor 10 80,
   Prim.print "Hum:".toList, Prim.setCursor 100 50, Prim.setTextSize 2, Prim.print "C".toList,
   Prim.setCursor 100 100, Prim.setTextSize 2, Prim.print "%".toList]

/-- The primitives of one field repaint (`updateTemperature`, `updateHumidity`
past the deadband test), in order: band `lo .. hi`, value box at row `boxY`,
text cursor at row `cursorY`. -/
def fieldPrims (lo hi value : ℚ) (boxY cursorY : Int) : List Prim :=
  [Prim.setTextSize 2,
   Prim.setTextColor (if value < lo ∨ value > hi then ST7735_RED else ST7735_WHITE),
   Prim.fillRect 40 boxY 60 20 ST7735_BLACK, Prim.setCursor 40 cursorY, Prim.printFloat value 1]

/-- The banner box of `displayMessage`, `fillRect(0, 60, 160, 20, ...)`:
x 0..159, y 60..79. -/
def bannerRegion : Rect := { x := 0, y := 60, w := 160, h := 20 }

/-- The primitives issued by each `displayData` call when the samples are
displayed in turn, one list per call. -/
def displayEach : TFTDisplay → List (ℚ × ℚ) → List (List Prim)
  | _, [] => []
  | d, p :: ps => issued d (d.displayData p.1 p.2) :: displayEach (d.displayData p.1 p.2) ps

/-- Samples at constant humidity 50 whose temperature starts at `start` and
rises by 0.0625 from one sample to the next, `n` of them. -/
def ramp (start : ℚ) : Nat → List (ℚ × ℚ)
  | 0 => []
  | n + 1 => (start, 50) :: ramp (start + 1 / 16) n

end TFTDisplay

/-! ## `DHT22Sensor` -/

/-- A `float` as the DHT library hands it over: `NAN` when the read failed, a
finite value otherwise. -/
inductive RawFloat where
  | nan
  | value (v : ℚ)
  deriving DecidableEq, Repr

/-- The C library `isnan`. -/
def isnan : RawFloat → Bool
  | RawFloat.nan => true
  | RawFloat.value _ => false

/-- The fields of `class DHT22Sensor` (the `DHT dht` member is the external
sensor driver). -/
structure DHT22Sensor where
  temperature : RawFloat
  humidity : RawFloat
  isInitialized : Bool
  deriving DecidableEq, Repr

namespace DHT22Sensor

/-- The constructor. -/
def fresh : DHT22Sensor :=
  { temperature := RawFloat.value 0, humidity := RawFloat.value 0, isInitialized := false }

/-- `void DHT22Sensor::begin()`. -/
def begin (s : DHT22Sensor) : DHT22Sensor :=
  { s with isInitialized := true }

/-- `bool DHT22Sensor::readData()`; `readHumidity` and `readTemperature` are
what `dht.readHumidity()` and `dht.readTemperature()` return when called. -/
def readData (s : DHT22Sensor) (readHumidity readTemperature : RawFloat) :
    Bool × DHT22Sensor :=
  if !s.isInitialized then (false, s)
  else
    let h := readHumidity
    let t := readTemperature
    if isnan h || isnan t then
      (false, s)
    else
      (true, { s with humidity := h, temperature := t })

/-- `float DHT22Sensor::getTemperature()`. -/
def getTemperature (s : DHT22Sensor) : RawFloat := s.temperature

/-- `float DHT22Sensor::getHumidity()`. -/
def getHumidity (s : DHT22Sensor) : RawFloat := s.humidity

/-- `bool DHT22Sensor::isAvailable()`. -/
def isAvailable (s : DHT22Sensor) : Bool := s.isInitialized

end DHT22Sensor

/-! ## Rounding to binary32 -/

/-- Rounding to the nearest integer moves a value by at most one half. -/
theorem roundEven_near (y : ℚ) (hy : 0 ≤ y) : |y - (roundEven y : ℚ)| ≤ 1 / 2 := by
  have h1 := Nat.floor_le hy
  have h2 := Nat.lt_floor_add_one y
  unfold roundEven
  simp only
  split
  · rw [abs_le]; constructor <;> linarith
  · split
    · rw [abs_le]; push_cast; constructor <;> linarith
    · split
      · rw [abs_le]; constructor <;> linarith
      · rw [abs_le]; push_cast; constructor <;> linarith

/-- Rounding to the nearest integer does not go below an integer below the value. -/
theorem le_roundEven (y : ℚ) (hy : 0 ≤ y) (k : ℕ) (h : (k : ℚ) ≤ y) : k ≤ roundEven y := by
  have hn := abs_le.1 (roundEven_near y hy)
  have : (k : ℚ) < (roundEven y : ℚ) + 1 := by linarith [hn.2]
  have : k < roundEven y + 1 := by exact_mod_cast this
  omega

/-- Rounding to the nearest integer does not pass an integer above the value. -/
theorem roundEven_le (y : ℚ) (hy : 0 ≤ y) (k : ℕ) (h : y ≤ (k : ℚ)) : roundEven y ≤ k := by
  have hn := abs_le.1 (roundEven_near y hy)
  have : (roundEven y : ℚ) < (k : ℚ) + 1 := by linarith [hn.1]
  have : roundEven y < k + 1 := by exact_mod_cast this
  omega

/-- A value below `k + 1/2` rounds to at most `k`. -/
theorem roundEven_le_of_lt_half (y : ℚ) (hy : 0 ≤ y) (k : ℕ) (h : y < (k : ℚ) + 1 / 2) :
    roundEven y ≤ k := by
  have hn := abs_le.1 (roundEven_near y hy)
  have : (roundEven y : ℚ) < (k : ℚ) + 1 := by linarith [hn.1]
  have : roundEven y < k + 1 := by exact_mod_cast this
  omega

/-- A value above `k + 1/2` rounds to more than `k`. -/
theorem lt_roundEven_of_half_lt (y : ℚ) (hy : 0 ≤ y) (k : ℕ) (h : (k : ℚ) + 1 / 2 < y) :
    k + 1 ≤ roundEven y := by
  have hn := abs_le.1 (roundEven_near y hy)
  have : (k : ℚ) < (roundEven y : ℚ) := by linarith [hn.2]
  have : k < roundEven y := by exact_mod_cast this
  omega

/-- An integer rounds to itself. -/
theorem roundEven_natCast (n : ℕ) : roundEven (n : ℚ) = n :=
  le_antisymm (roundEven_le _ (Nat.cast_nonneg n) n le_rfl)
    (le_roundEven _ (Nat.cast_nonneg n) n le_rfl)

/-- Powers of two are positive. -/
theorem two_zpow_pos (e : ℤ) : (0 : ℚ) < 2 ^ e := zpow_pos (by norm_num) e

/-- Below `2 ^ (f + 24)` the binary32 spacing is at most `2 ^ f`. -/
theorem ulpExp_le (x : ℚ) (f : ℤ) (hx : 0 < x) (hlt : x < 2 ^ (f + 24)) (hf : -149 ≤ f) :
    ulpExp x ≤ f := by
  have h : Int.log 2 x < f + 24 := by
    rw [← Int.lt_zpow_iff_log_lt (by norm_num) hx]
    exact_mod_cast hlt
  unfold ulpExp
  have := max_le (a := Int.log 2 x) (b := -126) (c := f + 23) (by omega) (by omega)
  omega

/-- From `2 ^ e` on the binary32 spacing is at least `2 ^ (e - 23)`. -/
theorem le_ulpExp (x : ℚ) (e : ℤ) (h : 2 ^ e ≤ x) : e - 23 ≤ ulpExp x := by
  have hx : 0 < x := lt_of_lt_of_le (two_zpow_pos e) h
  have hl : e ≤ Int.log 2 x := by
    rw [← Int.zpow_le_iff_le_log (by norm_num) hx]
    exact_mod_cast h
  unfold ulpExp
  have := le_max_left (Int.log 2 x) (-126)
  omega

/-- In the binade `[2 ^ e, 2 ^ (e + 1))` of a normal number the binary32 spacing is `2 ^ (e - 23)`. -/
theorem ulpExp_eq (x : ℚ) (e : ℤ) (he : -126 ≤ e) (h1 : 2 ^ e ≤ x) (h2 : x < 2 ^ (e + 1)) :
    ulpExp x = e - 23 := by
  have hx : 0 < x := lt_of_lt_of_le (two_zpow_pos e) h1
  have hl : e ≤ Int.log 2 x := by
    rw [← Int.zpow_le_iff_le_log (by norm_num) hx]
    exact_mod_cast h1
  have hu : Int.log 2 x < e + 1 := by
    rw [← Int.lt_zpow_iff_log_lt (by norm_num) hx]
    exact_mod_cast h2
  have hlog : Int.log 2 x = e := by omega
  unfold ulpExp
  rw [hlog, max_eq_left he]

/-- A rounded magnitude is not negative. -/
theorem roundMag_nonneg (x : ℚ) : 0 ≤ roundMag x := by
  unfold roundMag
  exact mul_nonneg (Nat.cast_nonneg _) (le_of_lt (two_zpow_pos _))

/-- Zero rounds to zero. -/
theorem roundMag_zero : roundMag 0 = 0 := by
  unfold roundMag
  rw [zero_div]
  have : roundEven 0 = 0 := by exact_mod_cast roundEven_natCast 0
  rw [this]
  simp

/-- Splitting a power of two at a lower exponent. -/
theorem two_zpow_split (f j : ℤ) (h : j ≤ f) :
    (2 : ℚ) ^ f = ((2 ^ (f - j).toNat : ℕ) : ℚ) * 2 ^ j := by
  have h1 : ((f - j).toNat : ℤ) = f - j := Int.toNat_of_nonneg (by omega)
  have h2 : (((2 ^ (f - j).toNat : ℕ)) : ℚ) = (2 : ℚ) ^ (f - j) := by
    have h3 : (2 : ℚ) ^ (f - j) = (2 : ℚ) ^ (((f - j).toNat : ℕ) : ℤ) := by rw [h1]
    rw [h3, zpow_natCast]
    push_cast
    rfl
  rw [h2, ← zpow_add₀ (by norm_num : (2 : ℚ) ≠ 0)]
  congr 1
  omega

/-- A multiple of its own spacing rounds to itself. -/
theorem roundMag_of_multiple (x : ℚ) (N : ℕ) (h : x = (N : ℚ) * 2 ^ ulpExp x) :
    roundMag x = x := by
  have hq : x / 2 ^ ulpExp x = (N : ℚ) := by
    rw [div_eq_iff (ne_of_gt (two_zpow_pos _))]
    exact h
  unfold roundMag
  rw [hq, roundEven_natCast]
  exact h.symm

/-- A significand of 24 bits times `2 ^ f` lies below `2 ^ (f + 24)`. -/
theorem mul_zpow_lt (m : ℕ) (f : ℤ) (hm : m < 2 ^ 24) : (m : ℚ) * 2 ^ f < 2 ^ (f + 24) := by
  have h1 : (m : ℚ) < 2 ^ (24 : ℤ) := by
    have h : (m : ℚ) < ((2 ^ 24 : ℕ) : ℚ) := by exact_mod_cast hm
    have e : ((2 ^ 24 : ℕ) : ℚ) = 2 ^ (24 : ℤ) := by norm_num
    rw [e] at h
    exact h
  have h2 : (2 : ℚ) ^ (f + 24) = 2 ^ (24 : ℤ) * 2 ^ f := by
    rw [← zpow_add₀ (by norm_num : (2 : ℚ) ≠ 0)]
    congr 1
    omega
  rw [h2]
  exact mul_lt_mul_of_pos_right h1 (two_zpow_pos f)

/-- A significand of 24 bits times a power of two within the exponent range rounds to itself. -/
theorem roundMag_fixed (m : ℕ) (f : ℤ) (hm : m < 2 ^ 24) (hf : -149 ≤ f) :
    roundMag ((m : ℚ) * 2 ^ f) = (m : ℚ) * 2 ^ f := by
  rcases Nat.eq_zero_or_pos m with h0 | hpos
  · subst h0
    simp [roundMag_zero]
  · have hx : (0 : ℚ) < (m : ℚ) * 2 ^ f :=
      mul_pos (by exact_mod_cast hpos) (two_zpow_pos f)
    have hj := ulpExp_le _ f hx (mul_zpow_lt m f hm) hf
    apply roundMag_of_multiple _ (m * 2 ^ (f - ulpExp ((m : ℚ) * 2 ^ f)).toNat)
    have hs := two_zpow_split f _ hj
    generalize ulpExp ((m : ℚ) * 2 ^ f) = j at hs ⊢
    rw [hs]
    push_cast
    ring

/-- Rounding does not go below a normal power of two below the value. -/
theorem le_roundMag_pow (x : ℚ) (e : ℤ) (he : -126 ≤ e) (h : 2 ^ e ≤ x) :
    (2 : ℚ) ^ e ≤ roundMag x := by
  have hx : 0 < x := lt_of_lt_of_le (two_zpow_pos e) h
  have hl : e ≤ Int.log 2 x := by
    rw [← Int.zpow_le_iff_le_log (by norm_num) hx]
    exact_mod_cast h
  have hlog : (2 : ℚ) ^ Int.log 2 x ≤ x := by
    have := Int.zpow_log_le_self (b := 2) (by norm_num) hx
    exact_mod_cast this
  have hu : ulpExp x = Int.log 2 x - 23 := by
    unfold ulpExp
    rw [max_eq_left (by omega)]
  have hup := two_zpow_pos (ulpExp x)
  have hsplit := two_zpow_split (Int.log 2 x) (ulpExp x) (by omega)
  have h23 : (Int.log 2 x - ulpExp x).toNat = 23 := by omega
  rw [h23] at hsplit
  have hq : ((2 ^ 23 : ℕ) : ℚ) ≤ x / 2 ^ ulpExp x := by
    rw [le_div_iff₀ hup, ← hsplit]
    exact hlog
  have hr := le_roundEven _ (div_nonneg (le_of_lt hx) (le_of_lt hup)) _ hq
  have h1 : (2 : ℚ) ^ e ≤ 2 ^ Int.log 2 x := zpow_le_zpow_right₀ (by norm_num) hl
  refine le_trans h1 ?_
  rw [hsplit]
  unfold roundMag
  exact mul_le_mul_of_nonneg_right (by exact_mod_cast hr) (le_of_lt hup)

/-- The magnitude of the rounded value is the rounded magnitude. -/
theorem abs_round32 (x : ℚ) : |round32 x| = roundMag |x| := by
  unfold round32
  split
  · rename_i h
    rw [abs_neg, abs_of_nonneg (roundMag_nonneg _), abs_of_neg h]
  · rename_i h
    rw [abs_of_nonneg (roundMag_nonneg _), abs_of_nonneg (not_lt.1 h)]

/-- On a value that is not negative `round32` rounds the magnitude. -/
theorem round32_of_nonneg (x : ℚ) (hx : 0 ≤ x) : round32 x = roundMag x := by
  unfold round32
  rw [if_neg (not_lt.2 hx)]

/-- Zero is a binary32 value. -/
theorem round32_zero : round32 0 = 0 := by
  rw [round32_of_nonneg 0 le_rfl, roundMag_zero]

/-- Rounding commutes with negation. -/
theorem round32_neg (x : ℚ) : round32 (-x) = -round32 x := by
  unfold round32
  rcases lt_trichotomy x 0 with h | h | h
  · rw [if_neg (by linarith), if_pos h, neg_neg]
  · subst h
    simp [roundMag_zero]
  · rw [if_pos (by linarith), if_neg (by linarith), neg_neg]

/-- A significand of 24 bits times a power of two within the exponent range is a fixed point of `round32`. -/
theorem round32_fixed (m : ℕ) (f : ℤ) (hm : m < 2 ^ 24) (hf : -149 ≤ f) :
    round32 ((m : ℚ) * 2 ^ f) = (m : ℚ) * 2 ^ f := by
  rw [round32_of_nonneg _ (mul_nonneg (Nat.cast_nonneg m) (le_of_lt (two_zpow_pos f))),
    roundMag_fixed m f hm hf]

/-- Evaluation of a rounding in the binade `[2 ^ e, 2 ^ (e + 1))`: the quotient by the spacing lies within one half of `n`, so the result is `n` spacings. -/
theorem roundMag_eval (x : ℚ) (e : ℤ) (n : ℕ) (he : -126 ≤ e) (h1 : 2 ^ e ≤ x)
    (h2 : x < 2 ^ (e + 1)) (hlo : (n : ℚ) - 1 / 2 < x / 2 ^ (e - 23))
    (hhi : x / 2 ^ (e - 23) < (n : ℚ) + 1 / 2) : roundMag x = (n : ℚ) * 2 ^ (e - 23) := by
  have hu := ulpExp_eq x e he h1 h2
  have hx : 0 < x := lt_of_lt_of_le (two_zpow_pos e) h1
  have hq : 0 ≤ x / 2 ^ (e - 23) := div_nonneg (le_of_lt hx) (le_of_lt (two_zpow_pos _))
  have hr : roundEven (x / 2 ^ (e - 23)) = n := by
    apply le_antisymm (roundEven_le_of_lt_half _ hq n hhi)
    rcases Nat.eq_zero_or_pos n with h0 | hpos
    · omega
    · have := lt_roundEven_of_half_lt _ hq (n - 1) (by
        have : ((n - 1 : ℕ) : ℚ) = (n : ℚ) - 1 := by
          rw [Nat.cast_sub hpos]; simp
        rw [this]; linarith)
      omega
  unfold roundMag
  rw [hu, hr]

/-- The binary32 value of the literal `0.1` is `13421773 / 2 ^ 27`. -/
theorem round32_tenth : round32 0.1 = 13421773 / 134217728 := by
  rw [round32_of_nonneg _ (by norm_num),
    roundMag_eval 0.1 (-4) 13421773 (by norm_num) (by norm_num) (by norm_num) (by norm_num)
      (by norm_num)]
  norm_num

/-- The value `1/16` is a binary32 value. -/
theorem round32_sixteenth : round32 (1 / 16) = 1 / 16 := by
  have h := round32_fixed 1 (-4) (by norm_num) (by norm_num)
  norm_num at h
  exact h

/-- A difference of at least a tenth fails the deadband test of the code. -/
theorem deadband_fails_of_exact (x : ℚ) (h : ¬ |x| < 0.1) : ¬ |round32 x| < round32 0.1 := by
  rw [abs_round32, round32_tenth]
  have ha : (1 : ℚ) / 10 ≤ |x| := by
    have := not_lt.1 h
    norm_num at this
    linarith
  rw [not_lt]
  by_cases h8 : (2 : ℚ) ^ (-3 : ℤ) ≤ |x|
  · have := le_roundMag_pow |x| (-3) (by norm_num) h8
    norm_num at this
    linarith
  · have h8' : |x| < 2 ^ ((-4 : ℤ) + 1) := by
      have := not_le.1 h8
      norm_num at this ⊢
      exact this
    have hu := ulpExp_eq |x| (-4) (by norm_num) (by norm_num; linarith) h8'
    have hup := two_zpow_pos (ulpExp |x|)
    have hq : ((13421772 : ℕ) : ℚ) + 1 / 2 < |x| / 2 ^ ulpExp |x| := by
      rw [lt_div_iff₀ hup, hu]
      norm_num
      linarith
    have hr := lt_roundEven_of_half_lt _ (div_nonneg (abs_nonneg x) (le_of_lt hup)) _ hq
    have hr' : ((13421773 : ℕ) : ℚ) ≤ (roundEven (|x| / 2 ^ ulpExp |x|) : ℚ) := by
      exact_mod_cast hr
    unfold roundMag
    calc (13421773 : ℚ) / 134217728 = ((13421773 : ℕ) : ℚ) * 2 ^ ulpExp |x| := by
          rw [hu]; norm_num
      _ ≤ _ := mul_le_mul_of_nonneg_right hr' (le_of_lt hup)

/-- A difference of at least a tenth fails the deadband test of the code. -/
theorem fsub_deadband_fails (a b : ℚ) (h : ¬ |a - b| < 0.1) :
    ¬ |fsub a b| < round32 0.1 :=
  deadband_fails_of_exact (a - b) h

/-- A value minus itself is zero. -/
theorem fsub_self (a : ℚ) : fsub a a = 0 := by
  unfold fsub
  rw [sub_self, round32_zero]

/-- A step of `1/16` is subtracted back exactly. -/
theorem fsub_step (a : ℚ) : fsub (a + 1 / 16) a = 1 / 16 := by
  unfold fsub
  rw [add_sub_cancel_left, round32_sixteenth]

/-- The binary32 value of `0.1` is positive. -/
theorem tenth_pos : (0 : ℚ) < round32 0.1 := by
  rw [round32_tenth]; norm_num

/-- A step of `1/16` is inside the deadband. -/
theorem sixteenth_lt_tenth : |(1 : ℚ) / 16| < round32 0.1 := by
  rw [round32_tenth]; norm_num [abs_lt]

/-- A significand of 24 bits times a power of two within the exponent range is a binary32 value. -/
theorem isF32_dyadic (m : ℕ) (f : ℤ) (hm : m < 2 ^ 24) (hf : -149 ≤ f) (hf2 : f ≤ 104) :
    isF32 ((m : ℚ) * 2 ^ f) := by
  refine ⟨round32_fixed m f hm hf, ?_⟩
  rw [abs_of_nonneg (mul_nonneg (Nat.cast_nonneg m) (le_of_lt (two_zpow_pos f)))]
  refine lt_of_lt_of_le (mul_zpow_lt m f hm) ?_
  have h : (2 : ℚ) ^ (f + 24) ≤ 2 ^ (128 : ℤ) := zpow_le_zpow_right₀ (by norm_num) (by omega)
  have e : (2 : ℚ) ^ (128 : ℤ) = 2 ^ 128 := by norm_cast
  rw [e] at h
  exact h

/-- The binary32 values are closed under negation. -/
theorem isF32_neg (x : ℚ) (h : isF32 x) : isF32 (-x) := by
  refine ⟨?_, ?_⟩
  · rw [round32_neg, h.1]
  · rw [abs_neg]; exact h.2

/-- The binary32 value 0.01f. -/
theorem isF32_hundredth : isF32 (5368709 / 536870912) := by
  have h := isF32_dyadic 5368709 (-29) (by norm_num) (by norm_num) (by norm_num)
  norm_num at h
  exact h

/-- The binary32 value 0.11f. -/
theorem isF32_eleven_hundredths : isF32 (7381975 / 67108864) := by
  have h := isF32_dyadic 7381975 (-26) (by norm_num) (by norm_num) (by norm_num)
  norm_num at h
  exact h

/-- The difference 0.11f - 0.01f is below a tenth and rounds to 0.1f. -/
theorem fsub_near_tenth :
    |(7381975 : ℚ) / 67108864 - 5368709 / 536870912| < 0.1 ∧
    fsub (7381975 / 67108864) (5368709 / 536870912) = round32 0.1 := by
  refine ⟨by norm_num [abs_lt], ?_⟩
  unfold fsub
  rw [round32_tenth, round32_of_nonneg _ (by norm_num),
    roundMag_eval _ (-4) 13421773 (by norm_num) (by norm_num) (by norm_num) (by norm_num)
      (by norm_num)]
  norm_num

/-- The value 50 is a binary32 value. -/
theorem isF32_fifty : isF32 50 := by
  have h := isF32_dyadic 50 0 (by norm_num) (by norm_num) (by norm_num)
  norm_num at h
  exact h

/-- The multiples of `1/16` up to `2 ^ 20` are binary32 values. -/
theorem isF32_sixteenths (i : ℕ) (hi : i ≤ 2 ^ 24) : isF32 ((i : ℚ) / 16) := by
  rcases Nat.lt_or_ge i (2 ^ 24) with h | h
  · have h1 := isF32_dyadic i (-4) h (by norm_num) (by norm_num)
    have e : (i : ℚ) * 2 ^ (-4 : ℤ) = (i : ℚ) / 16 := by norm_num; ring
    rw [e] at h1
    exact h1
  · have hi2 : i = 2 ^ 24 := le_antisymm hi h
    have h1 := isF32_dyadic 1 20 (by norm_num) (by norm_num) (by norm_num)
    have e : ((1 : ℕ) : ℚ) * 2 ^ (20 : ℤ) = (i : ℚ) / 16 := by
      rw [hi2]; norm_num
    rw [e] at h1
    exact h1

/-- A binary32 value beyond 2^20 in magnitude is a multiple of one eighth. -/
theorem isF32_large (x : ℚ) (hx : isF32 x) (hbig : 2 ^ 20 < |x|) : ∃ z : ℤ, x = (z : ℚ) / 8 := by
  have habs : |x| = roundMag |x| := by
    rw [← abs_round32, hx.1]
  have hj : (20 : ℤ) - 23 ≤ ulpExp |x| := le_ulpExp |x| 20 (by
    have e : (2 : ℚ) ^ (20 : ℤ) = 2 ^ 20 := by norm_cast
    rw [e]; exact le_of_lt hbig)
  have hsplit := two_zpow_split (ulpExp |x|) (-3) (by omega)
  obtain ⟨N, hN⟩ : ∃ N : ℕ, |x| = (N : ℚ) / 8 := by
    refine ⟨roundEven (|x| / 2 ^ ulpExp |x|) * 2 ^ (ulpExp |x| - -3).toNat, ?_⟩
    conv_lhs => rw [habs]
    unfold roundMag
    rw [hsplit]
    push_cast
    norm_num
    ring
  rcases abs_choice x with h | h
  · exact ⟨(N : ℤ), by rw [← h, hN]; push_cast; ring⟩
  · refine ⟨-(N : ℤ), ?_⟩
    have hx' : x = -|x| := by rw [h, neg_neg]
    rw [hx', hN]
    push_cast
    ring

/-- One step of a chain of binary32 values less than 0.1 apart: it does not
leave the range up to 2^20, and beyond that range it does not move. -/
theorem chain_step (a b : ℚ) (ha : isF32 a) (hb : isF32 b) (h : |b - a| < 0.1) :
    (|a| ≤ 2 ^ 20 → |b| ≤ 2 ^ 20) ∧ (2 ^ 20 < |a| → b = a) := by
  have habs := abs_lt.1 h
  constructor
  · intro hsmall
    by_contra hbig
    obtain ⟨z, hz⟩ := isF32_large b hb (not_le.1 hbig)
    have hbig' := not_le.1 hbig
    have ha' := abs_le.1 hsmall
    rcases le_or_lt 0 b with hpos | hneg
    · rw [abs_of_nonneg hpos, hz] at hbig'
      have hz1 : (2 ^ 23 : ℤ) < z := by
        have : ((2 ^ 23 : ℤ) : ℚ) < (z : ℚ) := by push_cast; linarith
        exact_mod_cast this
      have hz2 : ((2 ^ 23 + 1 : ℤ) : ℚ) ≤ (z : ℚ) := by exact_mod_cast hz1
      push_cast at hz2
      norm_num at habs
      linarith
    · rw [abs_of_neg hneg, hz] at hbig'
      have hz1 : z < -(2 ^ 23 : ℤ) := by
        have : (z : ℚ) < ((-(2 ^ 23) : ℤ) : ℚ) := by push_cast; linarith
        exact_mod_cast this
      have hz2 : (z : ℚ) ≤ ((-(2 ^ 23) - 1 : ℤ) : ℚ) := by exact_mod_cast (by omega : z ≤ -(2 ^ 23) - 1)
      push_cast at hz2
      norm_num at habs
      linarith
  · intro hbig
    obtain ⟨za, hza⟩ := isF32_large a ha hbig
    have hbbig : 2 ^ 20 < |b| := by
      have := abs_sub_abs_le_abs_sub a b
      rw [abs_sub_comm a b] at this
      by_contra hn
      have hn' := not_lt.1 hn
      obtain ⟨z, hz⟩ := isF32_large a ha hbig
      have hbb := abs_le.1 hn'
      rcases le_or_lt 0 a with hpos | hneg
      · rw [abs_of_nonneg hpos, hz] at hbig
        have hz1 : (2 ^ 23 : ℤ) < z := by
          have : ((2 ^ 23 : ℤ) : ℚ) < (z : ℚ) := by push_cast; linarith
          exact_mod_cast this
        have hz2 : ((2 ^ 23 + 1 : ℤ) : ℚ) ≤ (z : ℚ) := by exact_mod_cast hz1
        push_cast at hz2
        norm_num at habs
        linarith
      · rw [abs_of_neg hneg, hz] at hbig
        have hz1 : z < -(2 ^ 23 : ℤ) := by
          have : (z : ℚ) < ((-(2 ^ 23) : ℤ) : ℚ) := by push_cast; linarith
          exact_mod_cast this
        have hz2 : (z : ℚ) ≤ ((-(2 ^ 23) - 1 : ℤ) : ℚ) := by
          exact_mod_cast (by omega : z ≤ -(2 ^ 23) - 1)
        push_cast at hz2
        norm_num at habs
        linarith
    obtain ⟨zb, hzb⟩ := isF32_large b hb hbbig
    rw [hza, hzb] at habs ⊢
    norm_num at habs
    have h1 : (zb : ℚ) - za < 1 := by linarith
    have h2 : -1 < (zb : ℚ) - za := by linarith
    have h3 : zb - za < 1 := by exact_mod_cast h1
    have h4 : -1 < zb - za := by exact_mod_cast h2
    have : zb = za := by omega
    rw [this]

/-- A chain of binary32 values less than 0.1 apart that starts within 2^20 of
zero ends there, and one that starts beyond ends where it started. -/
theorem chain_stays (l : List (ℚ × ℚ)) :
    ∀ a : ℚ × ℚ, List.Chain' (fun a b : ℚ × ℚ => |b.1 - a.1| < 0.1) (a :: l) →
      (∀ s ∈ a :: l, isF32 s.1) → ∀ last, (a :: l).getLast? = some last →
      (|a.1| ≤ 2 ^ 20 → |last.1| ≤ 2 ^ 20) ∧ (2 ^ 20 < |a.1| → last.1 = a.1) := by
  induction l with
  | nil =>
    intro a _ _ last hlast
    have : a = last := by simpa using hlast
    subst this
    exact ⟨fun h => h, fun _ => rfl⟩
  | cons b l ih =>
    intro a hchain hf last hlast
    rw [List.chain'_cons] at hchain
    rw [List.getLast?_cons_cons] at hlast
    obtain ⟨h1, h2⟩ := ih b hchain.2 (fun s hs => hf s (List.mem_cons_of_mem _ hs)) last hlast
    obtain ⟨s1, s2⟩ := chain_step a.1 b.1 (hf a (List.mem_cons_self _ _))
      (hf b (List.mem_cons_of_mem _ (List.mem_cons_self _ _))) hchain.1
    constructor
    · intro hsmall
      exact h1 (s1 hsmall)
    · intro hbig
      have hb := s2 hbig
      have hl := h2 (by rw [hb]; exact hbig)
      rw [hl, hb]

namespace BluetoothModule

/-- Bytes without a newline are all appended to `receivedCommand`; the loop
ends with `false` and nothing left to read. -/
theorem checkCommandLoop_no_newline (bytes acc : Str) (h : '\n' ∉ bytes) :
    checkCommandLoop bytes acc = (false, [], acc ++ bytes) := by
  induction bytes generalizing acc with
  | nil => simp [checkCommandLoop]
  | cons c rest ih =>
    have hc : c ≠ '\n' := fun e => h (by simp [e])
    have hr : '\n' ∉ rest := fun e => h (List.mem_cons_of_mem _ e)
    simp [checkCommandLoop, hc, ih _ hr]

/-- Reading one line and its newline: the trimmed buffer is surfaced when it is
non-empty, and otherwise the loop goes on from an empty buffer. -/
theorem checkCommandLoop_line (line post acc : Str) (h : '\n' ∉ line) :
    checkCommandLoop (line ++ '\n' :: post) acc =
      if (trim (acc ++ line)).length > 0 then (true, post, trim (acc ++ line))
      else checkCommandLoop post [] := by
  induction line generalizing acc with
  | nil => simp [checkCommandLoop]
  | cons c rest ih =>
    have hc : c ≠ '\n' := fun e => h (by simp [e])
    have hr : '\n' ∉ rest := fun e => h (List.mem_cons_of_mem _ e)
    simp [checkCommandLoop, hc, ih _ hr]

/-- A sequence is cut at its first newline in one way only. -/
theorem first_newline_unique {x y r r' : Str} (hx : '\n' ∉ x) (hy : '\n' ∉ y)
    (h : x ++ '\n' :: r = y ++ '\n' :: r') : x = y ∧ r = r' := by
  induction x generalizing y with
  | nil =>
    cases y with
    | nil => simpa using h
    | cons d y' =>
      simp at h
      exact absurd (List.mem_cons.2 (Or.inl h.1)) hy
  | cons c x' ih =>
    cases y with
    | nil =>
      simp at h
      exact absurd (List.mem_cons.2 (Or.inl h.1.symm)) hx
    | cons d y' =>
      simp at h
      have hx' : '\n' ∉ x' := fun e => hx (List.mem_cons_of_mem _ e)
      have hy' : '\n' ∉ y' := fun e => hy (List.mem_cons_of_mem _ e)
      obtain ⟨e1, e2⟩ := ih hx' hy' h.2
      exact ⟨by rw [h.1, e1], e2⟩

/-- What follows the first newline of a prefix that ends in a newline is empty
or ends in a newline too. -/
theorem lineStart_tail {p0 p1 q : Str} (h : q ++ ['\n'] = p0 ++ '\n' :: p1) :
    p1 = [] ∨ ∃ q', p1 = q' ++ ['\n'] := by
  rcases List.eq_nil_or_concat p1 with h1 | ⟨p1', x, h1⟩
  · exact Or.inl h1
  · right
    subst h1
    have h2 : q ++ ['\n'] = (p0 ++ '\n' :: p1') ++ [x] := by simpa using h
    have h3 := List.append_inj' h2 rfl
    refine ⟨p1', ?_⟩
    have : x = '\n' := by simpa using h3.2.symm
    simp [this]

/-- One pass of the loop from an empty buffer: on `true`, blank lines were
skipped up to the first line with a non-empty trimmed text; on `false`, every
byte was read and every complete line was blank. -/
theorem checkCommandLoop_fresh_spec : ∀ (n : Nat) (bytes : Str), bytes.length ≤ n →
    ((checkCommandLoop bytes []).1 = true →
      ∃ (blanks : List Str) (line post : Str), (∀ l ∈ blanks, '\n' ∉ l ∧ trim l = []) ∧ '\n' ∉ line ∧
        trim line ≠ [] ∧
        bytes = (blanks.map (· ++ ['\n'])).flatten ++ line ++ '\n' :: post ∧
        (checkCommandLoop bytes []).2 = (post, trim line)) ∧
    ((checkCommandLoop bytes []).1 = false →
      (checkCommandLoop bytes []).2.1 = [] ∧
      ∀ pre line post, bytes = pre ++ line ++ '\n' :: post →
        (pre = [] ∨ ∃ q, pre = q ++ ['\n']) → '\n' ∉ line → trim line = []) := by
  intro n
  induction n with
  | zero =>
    intro bytes hlen
    have hb : bytes = [] := List.length_eq_zero.1 (Nat.le_zero.1 hlen)
    subst hb
    refine ⟨by simp [checkCommandLoop], fun _ => ⟨by simp [checkCommandLoop], ?_⟩⟩
    intro pre line post h
    simp at h
  | succ n ih =>
    intro bytes hlen
    by_cases hn : '\n' ∈ bytes
    · obtain ⟨l0, rest, rfl, h0⟩ := List.eq_append_cons_of_mem hn
      have hrest : rest.length ≤ n := by
        simp at hlen; omega
      rw [checkCommandLoop_line _ _ _ h0]
      simp only [List.nil_append, List.length_pos]
      by_cases ht : trim l0 = []
      · simp only [ht, ne_eq, not_true_eq_false, if_false]
        obtain ⟨ih1, ih2⟩ := ih rest hrest
        constructor
        · intro hr
          obtain ⟨blanks, line, post, hb, hl, htl, heq, hres⟩ := ih1 hr
          refine ⟨l0 :: blanks, line, post, ?_, hl, htl, ?_, hres⟩
          · intro l hl'
            rcases List.mem_cons.1 hl' with e | e
            · subst e; exact ⟨h0, ht⟩
            · exact hb l e
          · simp [heq]
        · intro hr
          obtain ⟨hrx, hall⟩ := ih2 hr
          refine ⟨hrx, ?_⟩
          intro pre line post heq hpre hline
          rcases hpre with hp | ⟨q, hq⟩
          · subst hp
            simp only [List.nil_append] at heq
            obtain ⟨e1, _⟩ := first_newline_unique h0 hline heq
            rw [← e1]; exact ht
          · have hmem : '\n' ∈ pre := by simp [hq]
            obtain ⟨p0, p1, hp, hp0⟩ := List.eq_append_cons_of_mem hmem
            have heq2 : l0 ++ '\n' :: rest = p0 ++ '\n' :: (p1 ++ line ++ '\n' :: post) := by
              rw [heq, hp]; simp
            obtain ⟨_, e2⟩ := first_newline_unique h0 hp0 heq2
            exact hall p1 line post e2 (lineStart_tail (hq ▸ hp)) hline
      · simp only [ht, ne_eq, not_false_eq_true, if_true]
        refine ⟨fun _ => ⟨[], l0, rest, by simp, h0, ht, by simp, rfl⟩, by simp⟩
    · rw [checkCommandLoop_no_newline _ _ hn]
      refine ⟨by simp, fun _ => ⟨rfl, ?_⟩⟩
      intro pre line post heq
      exact absurd (by simp [heq]) hn

/-- Whole lines, each with its newline, make up nothing or something that ends
in a newline. -/
theorem blankLines_lineStart (blanks : List Str) :
    (blanks.map (· ++ ['\n'])).flatten = [] ∨
      ∃ q, (blanks.map (· ++ ['\n'])).flatten = q ++ ['\n'] := by
  rcases List.eq_nil_or_concat blanks with h | ⟨bs, b, h⟩
  · left; simp [h]
  · right
    refine ⟨(bs.map (· ++ ['\n'])).flatten ++ b, ?_⟩
    simp [h]

/-- One result per chunk. -/
theorem pollChunks_length (chunks : List Str) :
    ∀ m : BluetoothModule, (pollChunks m chunks).length = chunks.length := by
  induction chunks with
  | nil => intro m; rfl
  | cons c cs ih => intro m; simp [pollChunks, ih]

/-- While no newline has arrived every call drains its chunk into
`receivedCommand`, so the call for the next chunk starts from the
concatenation of the earlier chunks. -/
theorem pollChunks_before_newline (pre : List Str) (ch : Str) (post : List Str) :
    ∀ m : BluetoothModule, m.rx = [] → '\n' ∉ pre.flatten →
      (pollChunks m (pre ++ ch :: post))[pre.length]? =
        some (checkCommand
          (feed { m with receivedCommand := m.receivedCommand ++ pre.flatten } ch)) := by
  induction pre with
  | nil =>
    intro m hm _
    simp [pollChunks]
  | cons p ps ih =>
    intro m hm hpre
    have hp : '\n' ∉ p := fun e => hpre (by simp [e])
    have hps : '\n' ∉ ps.flatten := fun e => hpre (by
      rw [List.flatten_cons]; exact List.mem_append_right _ e)
    have hstep : checkCommand (feed m p) =
        (false, { m with rx := [], receivedCommand := m.receivedCommand ++ p }) := by
      simp [checkCommand, feed, hm, checkCommandLoop_no_newline _ _ hp]
    have h2 := ih { m with rx := [], receivedCommand := m.receivedCommand ++ p } rfl hps
    have h3 : pollChunks m (p :: ps ++ ch :: post) =
        checkCommand (feed m p) :: pollChunks (checkCommand (feed m p)).2 (ps ++ ch :: post) := rfl
    rw [h3, hstep, List.length_cons, List.getElem?_cons_succ, h2]
    simp [hm, List.append_assoc]

/-- With nothing pending and an empty `receivedCommand`, a lone newline gives
`false` and leaves the buffer empty. -/
theorem checkCommand_blank_line_of_empty (m : BluetoothModule)
    (hrx : m.rx = []) (hcmd : m.receivedCommand = []) :
    (checkCommand (feed m ['\n'])).1 = false ∧
    (checkCommand (feed m ['\n'])).2.receivedCommand = [] ∧
    (checkCommand (feed m ['\n'])).2.rx = [] := by
  simp [checkCommand, feed, hrx, hcmd, checkCommandLoop, trim]

end BluetoothModule

/-! ## One-decimal numerals -/

/-- The digit loop of `Nat.toDigits` never drops a digit it has produced. -/
theorem toDigitsCore_length_le (b : Nat) :
    ∀ (fuel n : Nat) (ds : List Char), ds.length ≤ (Nat.toDigitsCore b fuel n ds).length := by
  intro fuel
  induction fuel with
  | zero => intro n ds; simp [Nat.toDigitsCore]
  | succ f ih =>
    intro n ds
    simp only [Nat.toDigitsCore]
    split
    · simp
    · exact le_trans (by simp) (ih _ _)

/-- A decimal numeral has at least one digit. -/
theorem decimal_length_pos (n : Nat) : 1 ≤ (decimal n).length := by
  unfold decimal Nat.toDigits
  simp only [Nat.toDigitsCore]
  split
  · simp
  · exact le_trans (by simp) (toDigitsCore_length_le _ _ _ _)

/-- The numeral of a number below ten is its digit. -/
theorem decimal_digit (d : Nat) (h : d < 10) : decimal d = [Nat.digitChar d] := by
  interval_cases d <;> rfl

/-- Padding a text already `width` long adds nothing. -/
theorem padLeft_of_le (fill : Char) (width : Nat) (s : Str) (h : width ≤ s.length) :
    padLeft fill width s = s := by
  simp [padLeft, Nat.sub_eq_zero_of_le h]

/-- With width 3 and one decimal, `dtostrf` needs no padding: sign, integer
part, point, one digit. -/
theorem dtostrf_one (val : ℚ) :
    dtostrf val 3 1 = (if val < 0 then ['-'] else []) ++
      decimal (⌊|val| * 10 ^ 1 + 1 / 2⌋₊ / 10) ++
      ['.', Nat.digitChar (⌊|val| * 10 ^ 1 + 1 / 2⌋₊ % 10)] := by
  unfold dtostrf
  generalize ⌊|val| * 10 ^ 1 + 1 / 2⌋₊ = S
  have hd := decimal_digit (S % 10) (Nat.mod_lt _ (by norm_num))
  have hl := decimal_length_pos (S / 10)
  simp only [pow_one, hd, gt_iff_lt, Nat.lt_one_iff, Nat.pos_of_ne_zero, zero_lt_one, if_true]
  rw [padLeft_of_le '0' 1 _ (by simp), padLeft_of_le ' ' 3 _ (by simp; omega)]

/-- The text of `String(v, 1)` is an optional `-`, a numeral, a point and one
digit, and the number it denotes is within one twentieth of `|v|`. -/
theorem floatString_one_decimal (v : ℚ) :
    ∃ ip d : Nat, d < 10 ∧
      floatString v 1 = (if v < 0 then ['-'] else []) ++ decimal ip ++ ['.', Nat.digitChar d] ∧
      |(|v|) - ((ip : ℚ) + (d : ℚ) / 10)| ≤ 1 / 20 := by
  have hnn : (0 : ℚ) ≤ |v| * 10 ^ 1 + 1 / 2 := by positivity
  refine ⟨⌊|v| * 10 ^ 1 + 1 / 2⌋₊ / 10, ⌊|v| * 10 ^ 1 + 1 / 2⌋₊ % 10, Nat.mod_lt _ (by norm_num), ?_, ?_⟩
  · exact dtostrf_one v
  · have h1 := Nat.floor_le hnn
    have h2 := Nat.lt_floor_add_one (|v| * 10 ^ 1 + 1 / 2)
    have h3 : ((⌊|v| * 10 ^ 1 + 1 / 2⌋₊ : ℕ) : ℚ) =
        10 * ((⌊|v| * 10 ^ 1 + 1 / 2⌋₊ / 10 : ℕ) : ℚ) + ((⌊|v| * 10 ^ 1 + 1 / 2⌋₊ % 10 : ℕ) : ℚ) := by
      exact_mod_cast (Nat.div_add_mod _ 10).symm
    rw [abs_le]
    constructor <;> linarith

/-! ## The render engine -/

/-- Writing a character never moves the cursor up, and the cell it draws
starts at or below the row the cursor was on. -/
theorem Gfx.write_rows (g : Gfx) (c : Char) :
    g.cursor_y ≤ (g.write c).1.cursor_y ∧ ∀ r ∈ (g.write c).2, g.cursor_y ≤ r.y := by
  have h8 : (0 : Int) ≤ (g.textsize : Int) * 8 := by positivity
  unfold Gfx.write
  by_cases h1 : c = '\n'
  · simp [h1, h8]
  · by_cases h2 : c = '\r'
    · simp [h1, h2]
    · by_cases h3 : g.wrap ∧ g.cursor_x + g.textsize * 6 > g.width
      · simp [h1, h2, h3, h8]
      · simp [h1, h2, h3]

/-- Every cell of a printed text starts at or below the row of the cursor at
the start. -/
theorem Gfx.writeStr_rows (s : Str) :
    ∀ g : Gfx, ∀ r ∈ (g.writeStr s).2, g.cursor_y ≤ r.y := by
  induction s with
  | nil => intro g r hr; simp [Gfx.writeStr] at hr
  | cons c cs ih =>
    intro g r hr
    simp only [Gfx.writeStr, List.mem_append] at hr
    rcases hr with hr | hr
    · exact (g.write_rows c).2 r hr
    · exact le_trans (g.write_rows c).1 (ih _ r hr)

namespace TFTDisplay

/-- The `abs` macro is the absolute value. -/
theorem abs_eq_abs_value (x : ℚ) : GyAi.abs x = |x| := by
  unfold GyAi.abs
  split
  · rw [abs_of_pos]; assumption
  · rw [abs_of_nonpos]; linarith

/-- The method `displayStaticElements` issues `staticPrims` and changes no field. -/
theorem displayStaticElements_eq (d : TFTDisplay) :
    d.displayStaticElements = { d with tft := d.tft ++ staticPrims } := by
  simp [displayStaticElements, clearDataArea, call, staticPrims]

/-- The method `updateTemperature` issues nothing within the deadband and
`fieldPrims` for the temperature box otherwise; it changes no field. -/
theorem updateTemperature_eq (d : TFTDisplay) (t : ℚ) :
    d.updateTemperature t = { d with tft := d.tft ++
      (if GyAi.abs (fsub t d.lastTemperature) < round32 0.1 then []
        else fieldPrims d.tempThresholdMin d.tempThresholdMax t 45 50) } := by
  unfold updateTemperature
  by_cases h1 : GyAi.abs (fsub t d.lastTemperature) < round32 0.1
  · simp [h1]
  · by_cases h2 : t < d.tempThresholdMin ∨ t > d.tempThresholdMax <;>
      simp [h1, h2, call, fieldPrims]

/-- The method `updateHumidity` issues nothing within the deadband and
`fieldPrims` for the humidity box otherwise; it changes no field. -/
theorem updateHumidity_eq (d : TFTDisplay) (h : ℚ) :
    d.updateHumidity h = { d with tft := d.tft ++
      (if GyAi.abs (fsub h d.lastHumidity) < round32 0.1 then []
        else fieldPrims d.humThresholdMin d.humThresholdMax h 95 100) } := by
  unfold updateHumidity
  by_cases h1 : GyAi.abs (fsub h d.lastHumidity) < round32 0.1
  · simp [h1]
  · by_cases h2 : h < d.humThresholdMin ∨ h > d.humThresholdMax <;>
      simp [h1, h2, call, fieldPrims]

/-- The whole effect of `displayData`. -/
theorem displayData_eq (d : TFTDisplay) (t h : ℚ) :
    d.displayData t h = { d with
      tft := d.tft ++ ((if d.lastTemperature < -50 then staticPrims else []) ++
        (if GyAi.abs (fsub t d.lastTemperature) < round32 0.1 then []
          else fieldPrims d.tempThresholdMin d.tempThresholdMax t 45 50) ++
        (if GyAi.abs (fsub h d.lastHumidity) < round32 0.1 then []
          else fieldPrims d.humThresholdMin d.humThresholdMax h 95 100)),
      lastTemperature := t, lastHumidity := h } := by
  unfold displayData
  by_cases h0 : d.lastTemperature < -50 <;>
    simp [h0, displayStaticElements_eq, updateTemperature_eq, updateHumidity_eq]

/-- The primitives `displayData` issues, in order. -/
theorem issued_displayData (d : TFTDisplay) (t h : ℚ) :
    issued d (d.displayData t h) =
      (if d.lastTemperature < -50 then staticPrims else []) ++
        (if GyAi.abs (fsub t d.lastTemperature) < round32 0.1 then []
          else fieldPrims d.tempThresholdMin d.tempThresholdMax t 45 50) ++
        (if GyAi.abs (fsub h d.lastHumidity) < round32 0.1 then []
          else fieldPrims d.humThresholdMin d.humThresholdMax h 95 100) := by
  rw [displayData_eq]
  simp [issued]

/-- A repaint of the humidity field stays clear of the temperature box. -/
theorem fieldPrims_humidity_clear (g : Gfx) (lo hi v : ℚ) :
    g.paintsOver (fieldPrims lo hi v 95 100) temperatureRegion = false := by
  simp only [Gfx.paintsOver, fieldPrims, Gfx.painted, Gfx.step, List.nil_append, List.append_nil,
    List.any_eq_false, List.mem_append, List.mem_singleton, List.mem_cons]
  intro r hr
  rcases hr with (hr | hr) | hr
  · subst hr
    simp [Rect.meets, temperatureRegion]
  · exact absurd hr (List.not_mem_nil r)
  · have h := Gfx.writeStr_rows _ _ r hr
    simp only [Rect.meets, temperatureRegion, decide_eq_true_eq, not_and]
    intro _ _ h3
    simp at h
    omega

end TFTDisplay

/-! ## Claims on the command channel -/

namespace BluetoothModule

/-- C1, evaluated on the bytes `A\nB\n` given to a fresh module: the first
`checkCommand()` returns `true` with `getCommand() = "A"`; the second returns
`true` with `getCommand() = "AB"` (the buffer is not reset when a command is
surfaced, so the next line is appended to the previous command); the third
returns `false`. -/
theorem checkCommand_second_command_appended :
    (checkCommand (feed fresh "A\nB\n".toList)).1 = true ∧
    (getCommand (checkCommand (feed fresh "A\nB\n".toList)).2).1 = "A".toList ∧
    (checkCommand (checkCommand (feed fresh "A\nB\n".toList)).2).1 = true ∧
    (getCommand (checkCommand (checkCommand (feed fresh "A\nB\n".toList)).2).2).1
      = "AB".toList ∧
    (checkCommand (checkCommand (checkCommand (feed fresh "A\nB\n".toList)).2).2).1
      = false := by
  decide

/-- C2: a line `s` without a newline whose trimmed text is non-empty, followed by
a newline, is cut into `chunks` in any way and fed to a fresh module, one
chunk before each `checkCommand()`. The call for a chunk returns `false` as long
as no newline has arrived (none in that chunk or in an earlier one), and the
call for the chunk holding the newline returns `true` with
`getCommand() = trim s`. -/
theorem checkCommand_chunked_line (s : Str) (chunks : List Str)
    (hs : '\n' ∉ s) (ht : trim s ≠ []) (hc : chunks.flatten = s ++ ['\n']) :
    ∀ (pre : List Str) (ch : Str) (post : List Str), chunks = pre ++ ch :: post →
      ∃ r, (pollChunks fresh chunks)[pre.length]? = some r ∧
        ('\n' ∉ (pre ++ [ch]).flatten → r.1 = false) ∧
        ('\n' ∈ ch → r.1 = true ∧ (getCommand r.2).1 = trim s) := by
  intro pre ch post hchunks
  subst hchunks
  have hflat : pre.flatten ++ (ch ++ post.flatten) = s ++ ['\n'] := by
    simpa using hc
  have hi : pre.length < (pollChunks fresh (pre ++ ch :: post)).length := by
    rw [pollChunks_length]; simp
  refine ⟨(pollChunks fresh (pre ++ ch :: post))[pre.length], List.getElem?_eq_getElem hi, ?_, ?_⟩
  · intro hno
    have hpre : '\n' ∉ pre.flatten := fun e => hno (by simp [e])
    have hch : '\n' ∉ ch := fun e => hno (by simp [e])
    have h := pollChunks_before_newline pre ch post fresh rfl hpre
    rw [List.getElem?_eq_getElem hi] at h
    rw [Option.some.inj h]
    simp [checkCommand, feed, fresh, checkCommandLoop_no_newline _ _ hch]
  · intro hmem
    have hpre : '\n' ∉ pre.flatten := by
      intro e
      obtain ⟨x, y, hx, hxn⟩ := List.eq_append_cons_of_mem e
      have h2 : s ++ '\n' :: [] = x ++ '\n' :: (y ++ (ch ++ post.flatten)) := by
        rw [← hflat, hx]; simp
      have h3 := (first_newline_unique hs hxn h2).2
      have h4 : ch = [] := by
        have := congrArg List.length h3
        simp at this
        exact List.length_eq_zero.1 (by omega)
      simp [h4] at hmem
    obtain ⟨a, b, hab, han⟩ := List.eq_append_cons_of_mem hmem
    have h2 : s ++ '\n' :: [] = (pre.flatten ++ a) ++ '\n' :: (b ++ post.flatten) := by
      rw [← hflat, hab]; simp
    have hpa : '\n' ∉ pre.flatten ++ a := by
      intro e
      rcases List.mem_append.1 e with e | e
      · exact hpre e
      · exact han e
    obtain ⟨e1, e2⟩ := first_newline_unique hs hpa h2
    have hb : b = [] := by
      have := congrArg List.length e2
      simp at this
      exact List.length_eq_zero.1 (by omega)
    have h := pollChunks_before_newline pre ch post fresh rfl hpre
    rw [List.getElem?_eq_getElem hi] at h
    rw [Option.some.inj h, hab, hb]
    have hpos : 0 < (trim (pre.flatten ++ a)).length := by
      rw [← e1]; exact List.length_pos.2 ht
    simp [checkCommand, getCommand, feed, fresh, checkCommandLoop_line _ _ _ han, hpos, e1]

/-- C2 witness: `PI` then `NG\n` gives `false`, then `true` with `PING`. -/
theorem checkCommand_chunked_line_witness :
    ('\n' ∉ "PING".toList ∧ trim "PING".toList ≠ [] ∧
      ["PI".toList, "NG\n".toList].flatten = "PING".toList ++ ['\n']) ∧
    (pollChunks fresh ["PI".toList, "NG\n".toList]).map (fun r => (r.1, (getCommand r.2).1)) =
      [(false, "PI".toList), (true, "PING".toList)] ∧
    ∀ (pre : List Str) (ch : Str) (post : List Str),
      ["PI".toList, "NG\n".toList] = pre ++ ch :: post →
      ∃ r, (pollChunks fresh ["PI".toList, "NG\n".toList])[pre.length]? = some r ∧
        ('\n' ∉ (pre ++ [ch]).flatten → r.1 = false) ∧
        ('\n' ∈ ch → r.1 = true ∧ (getCommand r.2).1 = trim "PING".toList) :=
  ⟨⟨by decide, by decide, by decide⟩, by decide,
    checkCommand_chunked_line "PING".toList ["PI".toList, "NG\n".toList]
      (by decide) (by decide) (by decide)⟩

/-- C3, evaluated after a retrieved command: a fresh module reads `A\n`
(`checkCommand()` is `true`), `getCommand()` returns `"A"` and leaves the module
with nothing to read and `receivedCommand = "A"`; a lone newline then makes
`checkCommand()` return `true`, with `receivedCommand` still `"A"`. -/
theorem checkCommand_blank_line_after_retrieval :
    (checkCommand (feed fresh "A\n".toList)).1 = true ∧
    getCommand (checkCommand (feed fresh "A\n".toList)).2 =
      ("A".toList, { fresh with receivedCommand := "A".toList }) ∧
    checkCommand (feed (getCommand (checkCommand (feed fresh "A\n".toList)).2).2 ['\n']) =
      (true, { fresh with receivedCommand := "A".toList }) := by
  decide

/-- C4: one `checkCommand()` on a fresh module with `bytes` available. It returns
`true` exactly when `bytes` holds a complete line (starting at the beginning or
right after a newline, ended by a newline) whose trimmed text is non-empty. On
`true`, `bytes` is a run of blank lines, then that first non-blank line, its
newline and a remainder `post`; `getCommand()` is the trimmed line and the
transport still holds exactly `post`. On `false` the transport is drained. -/
theorem checkCommand_fresh_first_command (bytes : Str) :
    ((checkCommand (feed fresh bytes)).1 = true ↔
      ∃ pre line post : Str, bytes = pre ++ line ++ '\n' :: post ∧
        (pre = [] ∨ ∃ q, pre = q ++ ['\n']) ∧ '\n' ∉ line ∧ trim line ≠ []) ∧
    ((checkCommand (feed fresh bytes)).1 = true →
      ∃ (blanks : List Str) (line post : Str),
        (∀ l ∈ blanks, '\n' ∉ l ∧ trim l = []) ∧ '\n' ∉ line ∧ trim line ≠ [] ∧
        bytes = (blanks.map (· ++ ['\n'])).flatten ++ line ++ '\n' :: post ∧
        (getCommand (checkCommand (feed fresh bytes)).2).1 = trim line ∧
        (checkCommand (feed fresh bytes)).2.rx = post) ∧
    ((checkCommand (feed fresh bytes)).1 = false →
      (checkCommand (feed fresh bytes)).2.rx = []) := by
  obtain ⟨h1, h2⟩ := checkCommandLoop_fresh_spec bytes.length bytes (le_refl _)
  have hcc : checkCommand (feed fresh bytes) =
      ((checkCommandLoop bytes []).1,
        { fresh with rx := (checkCommandLoop bytes []).2.1,
                     receivedCommand := (checkCommandLoop bytes []).2.2 }) := by
    simp [checkCommand, feed, fresh]
  rw [hcc]
  refine ⟨⟨?_, ?_⟩, ?_, ?_⟩
  · intro hr
    obtain ⟨blanks, line, post, _, hl, htl, heq, _⟩ := h1 hr
    exact ⟨_, line, post, heq, blankLines_lineStart blanks, hl, htl⟩
  · rintro ⟨pre, line, post, heq, hpre, hl, htl⟩
    by_contra hr
    have hf : (checkCommandLoop bytes []).1 = false := by simpa using hr
    exact htl ((h2 hf).2 pre line post heq hpre hl)
  · intro hr
    obtain ⟨blanks, line, post, hb, hl, htl, heq, hres⟩ := h1 hr
    refine ⟨blanks, line, post, hb, hl, htl, heq, ?_, ?_⟩
    · simp [getCommand, hres]
    · simp [hres]
  · intro hr
    exact (h2 hr).1

end BluetoothModule

/-! ## Claims on the render engine -/

namespace TFTDisplay

/-- C5 (amended): in a state whose `lastTemperature` is not below -50, a sample
whose temperature passes the deadband test of the code (the `float` difference
`temperature - lastTemperature`, in absolute value, is below the `float` 0.1)
makes `displayData` issue no primitive that may paint a pixel of the
temperature value box (x 40..99, y 45..64), whatever the text state `g` of the
peripheral; afterwards `lastTemperature` is the new temperature. -/
theorem displayData_deadband_keeps_temperature (d : TFTDisplay) (g : Gfx) (t h : ℚ)
    (hshown : ¬ d.lastTemperature < -50)
    (hclose : |fsub t d.lastTemperature| < round32 0.1) :
    g.paintsOver (issued d (d.displayData t h)) temperatureRegion = false ∧
    (d.displayData t h).lastTemperature = t := by
  refine ⟨?_, by simp [displayData_eq]⟩
  rw [issued_displayData]
  simp only [hshown, abs_eq_abs_value, hclose, if_true, if_false, List.nil_append]
  split
  · rfl
  · exact fieldPrims_humidity_clear g _ _ _

/-- C5 witness: last sample (21.5, 60.25), new sample (21.5625, 70). -/
theorem displayData_deadband_keeps_temperature_witness :
    (¬ ({ fresh with lastTemperature := 21.5, lastHumidity := 60.25 } : TFTDisplay).lastTemperature
        < -50 ∧
      |fsub (21.5 + 1 / 16)
        ({ fresh with lastTemperature := 21.5, lastHumidity := 60.25 } : TFTDisplay).lastTemperature|
        < round32 0.1) ∧
    (Gfx.initial.paintsOver
        (issued { fresh with lastTemperature := 21.5, lastHumidity := 60.25 }
          (displayData { fresh with lastTemperature := 21.5, lastHumidity := 60.25 }
            (21.5 + 1 / 16) 70))
        temperatureRegion = false ∧
      (displayData { fresh with lastTemperature := 21.5, lastHumidity := 60.25 }
        (21.5 + 1 / 16) 70).lastTemperature = 21.5 + 1 / 16) :=
  ⟨⟨by norm_num, by rw [fsub_step]; exact sixteenth_lt_tenth⟩,
    displayData_deadband_keeps_temperature
      { fresh with lastTemperature := 21.5, lastHumidity := 60.25 } Gfx.initial (21.5 + 1 / 16) 70
      (by norm_num) (by rw [fsub_step]; exact sixteenth_lt_tenth)⟩

/-- C5 counterexample: on a fresh display (`lastTemperature = -100`) the sample
(-100, -100) is within the deadband, and `displayData` still issues
`fillRect(0, 20, 160, 120, BLACK)`, which covers the temperature value box.
Besides, after the binary32 sample 0.01f the binary32 sample 0.11f differs from
it by less than 0.1, but the `float` difference is 0.1f, the test fails and the
box is filled again. -/
theorem displayData_deadband_unshown_repaints :
    (|(-100 : ℚ) - fresh.lastTemperature| < 0.1 ∧
      Prim.fillRect 0 20 160 120 ST7735_BLACK ∈ issued fresh (fresh.displayData (-100) (-100)) ∧
      Rect.covers { x := 0, y := 20, w := 160, h := 120 } temperatureRegion = true ∧
      Gfx.initial.paintsOver (issued fresh (fresh.displayData (-100) (-100))) temperatureRegion
        = true) ∧
    (isF32 (5368709 / 536870912) ∧ isF32 (7381975 / 67108864) ∧
      ¬ ({ fresh with lastTemperature := 5368709 / 536870912, lastHumidity := 50 }
          : TFTDisplay).lastTemperature < -50 ∧
      |(7381975 : ℚ) / 67108864 -
        ({ fresh with lastTemperature := 5368709 / 536870912, lastHumidity := 50 }
          : TFTDisplay).lastTemperature| < 0.1 ∧
      Prim.fillRect 40 45 60 20 ST7735_BLACK ∈
        issued { fresh with lastTemperature := 5368709 / 536870912, lastHumidity := 50 }
          (displayData { fresh with lastTemperature := 5368709 / 536870912, lastHumidity := 50 }
            (7381975 / 67108864) 50)) := by
  have c1 : fresh.lastTemperature < -50 := by norm_num [fresh]
  have c2 : GyAi.abs (fsub (-100) fresh.lastTemperature) < round32 0.1 := by
    rw [abs_eq_abs_value]
    show |fsub (-100) (-100)| < round32 0.1
    rw [fsub_self, abs_zero]
    exact tenth_pos
  have c3 : GyAi.abs (fsub (-100) fresh.lastHumidity) < round32 0.1 := c2
  have h : issued fresh (fresh.displayData (-100) (-100)) = staticPrims := by
    rw [issued_displayData, if_pos c1, if_pos c2, if_pos c3]
    simp
  rw [h]
  refine ⟨⟨by norm_num [fresh], by simp [staticPrims], by decide, by decide⟩,
    isF32_hundredth, isF32_eleven_hundredths, by norm_num, fsub_near_tenth.1, ?_⟩
  rw [issued_displayData]
  have h1 : ¬ ((5368709 : ℚ) / 536870912 < -50) := by norm_num
  simp only [h1, if_false, abs_eq_abs_value, fsub_near_tenth.2,
    abs_of_pos tenth_pos, lt_irrefl, List.nil_append]
  simp [fieldPrims]

/-- C6 (amended): on a fresh display and for a first sample whose temperature is
not below -50, `displayData` prints each of `Tem:`, `Hum:`, `C` and `%` exactly
once, and the following `displayData` prints none of them. -/
theorem displayData_static_once (t1 h1 t2 h2 : ℚ) (hwarm : ¬ t1 < -50) :
    (∀ s ∈ ["Tem:".toList, "Hum:".toList, "C".toList, "%".toList],
      (issued fresh (fresh.displayData t1 h1)).count (Prim.print s) = 1) ∧
    (∀ s ∈ ["Tem:".toList, "Hum:".toList, "C".toList, "%".toList],
      Prim.print s ∉
        issued (fresh.displayData t1 h1) ((fresh.displayData t1 h1).displayData t2 h2)) := by
  have hf : fresh.lastTemperature < -50 := by norm_num [fresh]
  have hcount : ∀ (lo hi v : ℚ) (a b : Int) (s : Str),
      (fieldPrims lo hi v a b).count (Prim.print s) = 0 := by
    intro lo hi v a b s
    simp [fieldPrims, List.count_cons]
  have hmem : ∀ (lo hi v : ℚ) (a b : Int) (s : Str),
      Prim.print s ∉ fieldPrims lo hi v a b := by
    intro lo hi v a b s
    simp [fieldPrims]
  constructor
  · intro s hs
    rw [issued_displayData]
    simp only [hf, if_true, List.count_append]
    have h1 : staticPrims.count (Prim.print s) = 1 := by
      simp only [List.mem_cons, List.mem_singleton, List.not_mem_nil, or_false] at hs
      rcases hs with rfl | rfl | rfl | rfl <;> decide
    have h2 : ∀ (c : Prop) [Decidable c] (lo hi v : ℚ) (a b : Int),
        (if c then [] else fieldPrims lo hi v a b).count (Prim.print s) = 0 := by
      intro c _ lo hi v a b
      split
      · rfl
      · exact hcount _ _ _ _ _ _
    rw [h1, h2, h2]
  · intro s _
    rw [issued_displayData]
    have hl : (fresh.displayData t1 h1).lastTemperature = t1 := by simp [displayData_eq]
    simp only [hl, hwarm, if_false, List.nil_append, List.mem_append, not_or]
    constructor <;> split <;> first | exact List.not_mem_nil _ | exact hmem _ _ _ _ _ _

/-- C6 witness: samples (21.5, 60.2) and (22, 61). -/
theorem displayData_static_once_witness :
    ¬ ((21.5 : ℚ) < -50) ∧
    ((∀ s ∈ ["Tem:".toList, "Hum:".toList, "C".toList, "%".toList],
      (issued fresh (fresh.displayData 21.5 60.2)).count (Prim.print s) = 1) ∧
    (∀ s ∈ ["Tem:".toList, "Hum:".toList, "C".toList, "%".toList],
      Prim.print s ∉
        issued (fresh.displayData 21.5 60.2)
          ((fresh.displayData 21.5 60.2).displayData 22 61))) :=
  ⟨by norm_num, displayData_static_once 21.5 60.2 22 61 (by norm_num)⟩

/-- C6 counterexample: after the first sample (-60, 50) on a fresh display, the
second `displayData` (sample (20, 50)) prints the label `Tem:` again. -/
theorem displayData_static_repainted_after_cold_sample :
    Prim.print "Tem:".toList ∈
      issued (fresh.displayData (-60) 50) ((fresh.displayData (-60) 50).displayData 20 50) := by
  rw [issued_displayData]
  have hl : (fresh.displayData (-60) 50).lastTemperature = -60 := by simp [displayData_eq]
  have hc : (-60 : ℚ) < -50 := by norm_num
  simp only [hl, hc, if_true]
  simp [staticPrims]

/-- C8: after `displayData(t, h)`, `lastTemperature = t` and `lastHumidity = h`,
and the four thresholds and `showThresholds` are as before. -/
theorem displayData_records_sample (d : TFTDisplay) (t h : ℚ) :
    (d.displayData t h).lastTemperature = t ∧
    (d.displayData t h).lastHumidity = h ∧
    (d.displayData t h).tempThresholdMin = d.tempThresholdMin ∧
    (d.displayData t h).tempThresholdMax = d.tempThresholdMax ∧
    (d.displayData t h).humThresholdMin = d.humThresholdMin ∧
    (d.displayData t h).humThresholdMax = d.humThresholdMax ∧
    (d.displayData t h).showThresholds = d.showThresholds := by
  simp [displayData_eq]

end TFTDisplay

/-! ## Claims on the outbound lines -/

namespace BluetoothModule

/-- C9: after `updateConnectionStatus(b)`, `connectionStatus()` returns `b`; the
transport has received exactly one more line, `RESP:CONNECTED` for `true` and
`RESP:DISCONNECTED` for `false`, followed by a flush; `receivedCommand` and the
unread bytes are unchanged. -/
theorem updateConnectionStatus_spec (m : BluetoothModule) (b : Bool) :
    (connectionStatus (updateConnectionStatus m b)).1 = b ∧
    (updateConnectionStatus m b).tx = m.tx ++
      [SerialOut.println (if b then "RESP:CONNECTED".toList else "RESP:DISCONNECTED".toList),
        SerialOut.flush] ∧
    (updateConnectionStatus m b).receivedCommand = m.receivedCommand ∧
    (updateConnectionStatus m b).rx = m.rx := by
  cases b <;> simp [updateConnectionStatus, connectionStatus, sendResponse]

/-- C10: `sendData(t, h)` writes exactly one line, `D:` then `t` with one decimal,
a comma and `h` with one decimal, and then flushes; a value with one decimal
is an optional `-`, a numeral, a point and one digit, within one twentieth of
the value; `sendData(21.5, 60.2)` writes `D:21.5,60.2`. -/
theorem sendData_line (m : BluetoothModule) (t h : ℚ) :
    (sendData m t h).tx = m.tx ++
      [SerialOut.println
        ("D:".toList ++ floatString t 1 ++ ",".toList ++ floatString h 1), SerialOut.flush] ∧
    (∀ v : ℚ, ∃ ip d : Nat, d < 10 ∧
      floatString v 1 = (if v < 0 then ['-'] else []) ++ decimal ip ++ ['.', Nat.digitChar d] ∧
      |(|v|) - ((ip : ℚ) + (d : ℚ) / 10)| ≤ 1 / 20) ∧
    (sendData m 21.5 60.2).tx = m.tx ++
      [SerialOut.println "D:21.5,60.2".toList, SerialOut.flush] := by
  refine ⟨rfl, floatString_one_decimal, ?_⟩
  have f1 : ⌊|(21.5 : ℚ)| * 10 ^ 1 + 1 / 2⌋₊ = 215 := by
    rw [Nat.floor_eq_iff (by positivity)]; norm_num [abs_of_nonneg]
  have f2 : ⌊|(60.2 : ℚ)| * 10 ^ 1 + 1 / 2⌋₊ = 602 := by
    rw [Nat.floor_eq_iff (by positivity)]; norm_num [abs_of_nonneg]
  have s1 : ¬ ((21.5 : ℚ) < 0) := by norm_num
  have s2 : ¬ ((60.2 : ℚ) < 0) := by norm_num
  have d1 : floatString 21.5 1 = "21.5".toList := by
    rw [show floatString 21.5 1 = dtostrf 21.5 3 1 from rfl, dtostrf_one, f1, if_neg s1]; decide
  have d2 : floatString 60.2 1 = "60.2".toList := by
    rw [show floatString 60.2 1 = dtostrf 60.2 3 1 from rfl, dtostrf_one, f2, if_neg s2]; decide
  simp only [sendData, sendDataString, d1, d2]
  rfl

end BluetoothModule

/-! ## Further lemmas -/

/-- Every character of the trimmed text is a character of the text. -/
theorem trim_subset (s : Str) : ∀ c ∈ trim s, c ∈ s := by
  intro c hc
  unfold trim at hc
  rw [List.mem_reverse] at hc
  have h1 := (List.dropWhile_sublist isspace (l := (s.dropWhile isspace).reverse)).subset hc
  rw [List.mem_reverse] at h1
  exact (List.dropWhile_sublist isspace).subset h1

/-- A decimal digit is not a newline. -/
theorem digitChar_ne_newline (d : Nat) (h : d < 10) : Nat.digitChar d ≠ '\n' := by
  interval_cases d <;> decide

/-- The digit loop of `Nat.toDigits` produces no newline. -/
theorem toDigitsCore_no_newline (fuel : Nat) :
    ∀ (n : Nat) (acc : List Char), '\n' ∉ acc → '\n' ∉ Nat.toDigitsCore 10 fuel n acc := by
  induction fuel with
  | zero => intro n acc h; simpa [Nat.toDigitsCore] using h
  | succ f ih =>
    intro n acc h
    have hd : '\n' ∉ Nat.digitChar (n % 10) :: acc := by
      intro hm
      rcases List.mem_cons.1 hm with e | e
      · exact digitChar_ne_newline _ (Nat.mod_lt _ (by norm_num)) e.symm
      · exact h e
    simp only [Nat.toDigitsCore]
    split
    · exact hd
    · exact ih _ _ hd

/-- A decimal numeral holds no newline. -/
theorem decimal_no_newline (n : Nat) : '\n' ∉ decimal n :=
  toDigitsCore_no_newline _ _ _ (List.not_mem_nil _)

namespace BluetoothModule

/-- The loop never leaves a newline in `receivedCommand` when there was none. -/
theorem checkCommandLoop_no_newline_kept (rx : Str) :
    ∀ acc : Str, '\n' ∉ acc → '\n' ∉ (checkCommandLoop rx acc).2.2 := by
  induction rx with
  | nil => intro acc h; simpa [checkCommandLoop] using h
  | cons c rest ih =>
    intro acc h
    unfold checkCommandLoop
    by_cases hc : c = '\n'
    · simp only [hc, if_true]
      split
      · exact fun hm => h (trim_subset acc _ hm)
      · exact ih [] (List.not_mem_nil _)
    · simp only [hc, if_false]
      apply ih
      intro hm
      rcases List.mem_append.1 hm with hm | hm
      · exact h hm
      · exact hc (List.mem_singleton.1 hm).symm

/-- No step puts a newline into `receivedCommand`. -/
theorem step_no_newline_kept (m : BluetoothModule) (a : Action)
    (h : '\n' ∉ m.receivedCommand) : '\n' ∉ (step m a).receivedCommand := by
  cases a with
  | checkCommand => exact checkCommandLoop_no_newline_kept _ _ h
  | updateConnectionStatus status => cases status <;> exact h
  | _ => exact h

end BluetoothModule

namespace TFTDisplay

/-- The first sample of a ramp. -/
theorem ramp_head (s : ℚ) (n : Nat) : (ramp s (n + 1)).head? = some (s, 50) := rfl

/-- The last sample of a ramp of `n + 1` samples lies `n` steps above the first. -/
theorem ramp_getLast (n : Nat) :
    ∀ s : ℚ, (ramp s (n + 1)).getLast? = some (s + n / 16, 50) := by
  induction n with
  | zero => intro s; simp [ramp]
  | succ k ih =>
    intro s
    have h : ramp s (k + 1 + 1) = (s, 50) :: ramp (s + 1 / 16) (k + 1) := rfl
    have h2 : ramp (s + 1 / 16) (k + 1) = (s + 1 / 16, 50) :: ramp (s + 1 / 16 + 1 / 16) k := rfl
    rw [h, h2, List.getLast?_cons_cons, ← h2, ih]
    congr 2
    push_cast
    ring

/-- Consecutive samples of a ramp are 0.0625 apart, less than the deadband. -/
theorem ramp_chain (n : Nat) :
    ∀ s : ℚ, List.Chain' (fun a b : ℚ × ℚ => |b.1 - a.1| < 0.1) (ramp s n) := by
  induction n with
  | zero => intro s; exact List.chain'_nil
  | succ k ih =>
    intro s
    cases k with
    | zero => exact List.chain'_singleton _
    | succ j =>
      have h : ramp s (j + 1 + 1) = (s, 50) :: (s + 1 / 16, 50) :: ramp (s + 1 / 16 + 1 / 16) j :=
        rfl
      rw [h, List.chain'_cons]
      refine ⟨?_, ih (s + 1 / 16)⟩
      norm_num [abs_lt]

/-- The samples of a ramp: the start plus a number of steps, at humidity 50. -/
theorem ramp_mem (n : Nat) :
    ∀ (s : ℚ) (p : ℚ × ℚ), p ∈ ramp s n → ∃ i : ℕ, i < n ∧ p = (s + i / 16, 50) := by
  induction n with
  | zero => intro s p hp; simp [ramp] at hp
  | succ k ih =>
    intro s p hp
    have h : ramp s (k + 1) = (s, 50) :: ramp (s + 1 / 16) k := rfl
    rw [h, List.mem_cons] at hp
    rcases hp with hp | hp
    · exact ⟨0, Nat.succ_pos k, by simp [hp]⟩
    · obtain ⟨i, hi, hpi⟩ := ih _ p hp
      refine ⟨i + 1, by omega, ?_⟩
      rw [hpi]
      congr 1
      push_cast
      ring

/-- One list of primitives per sample. -/
theorem displayEach_length (samples : List (ℚ × ℚ)) :
    ∀ d : TFTDisplay, (displayEach d samples).length = samples.length := by
  induction samples with
  | nil => intro d; rfl
  | cons p ps ih => intro d; simp [displayEach, ih]

/-- From a state that has shown the sample just below the ramp's start, at
humidity 50, no call on the ramp issues any primitive: every `float` difference
is 0.0625 for the temperature and 0 for the humidity. -/
theorem displayEach_ramp_quiet (n : Nat) :
    ∀ (s : ℚ) (d : TFTDisplay), ¬ d.lastTemperature < -50 → d.lastHumidity = 50 →
      s = d.lastTemperature + 1 / 16 →
      ∀ ps ∈ displayEach d (ramp s n), ps = [] := by
  induction n with
  | zero => intro s d _ _ _ ps hps; simp [ramp, displayEach] at hps
  | succ k ih =>
    intro s d hshown hhum hs ps hps
    have h : displayEach d (ramp s (k + 1)) =
        issued d (d.displayData s 50) ::
          displayEach (d.displayData s 50) (ramp (s + 1 / 16) k) := rfl
    rw [h, List.mem_cons] at hps
    rcases hps with hps | hps
    · have ht : |fsub s d.lastTemperature| < round32 0.1 := by
        rw [hs, fsub_step]; exact sixteenth_lt_tenth
      have hh : |fsub 50 d.lastHumidity| < round32 0.1 := by
        rw [hhum, fsub_self, abs_zero]; exact tenth_pos
      rw [hps, issued_displayData]
      simp [hshown, abs_eq_abs_value, ht, hh]
    · refine ih (s + 1 / 16) (d.displayData s 50) ?_ ?_ ?_ ps hps
      · have : ¬ s < -50 := by
          intro hlt
          apply hshown
          rw [hs] at hlt
          linarith
        simpa [displayData_eq] using this
      · simp [displayData_eq]
      · simp [displayData_eq]

end TFTDisplay

/-! ## Further claims -/

namespace BluetoothModule

/-- C4 witness: the bytes ` \nPING\nX` give `true`, the command `PING`, and `X`
left on the transport. -/
theorem checkCommand_fresh_first_command_witness :
    (checkCommand (feed fresh " \nPING\nX".toList)).1 = true ∧
    (getCommand (checkCommand (feed fresh " \nPING\nX".toList)).2).1 = "PING".toList ∧
    (checkCommand (feed fresh " \nPING\nX".toList)).2.rx = "X".toList :=
  ⟨(checkCommand_fresh_first_command " \nPING\nX".toList).1.2
      ⟨" \n".toList, "PING".toList, "X".toList, by decide, Or.inr ⟨" ".toList, by decide⟩,
        by decide, by decide⟩,
    by decide, by decide⟩

end BluetoothModule

namespace TFTDisplay

end TFTDisplay

namespace BluetoothModule

/-- C12: `getCommand()` returns `receivedCommand` and leaves the module as it
was, so after any number `n` of `getCommand()` calls the module is unchanged and
one more call returns the same text. -/
theorem getCommand_keeps_state (m : BluetoothModule) (n : Nat) :
    getCommand m = (m.receivedCommand, m) ∧
    (fun s => (getCommand s).2)^[n] m = m ∧
    (getCommand ((fun s => (getCommand s).2)^[n] m)).1 = m.receivedCommand := by
  have h : (fun s : BluetoothModule => (getCommand s).2)^[n] m = m := by
    induction n with
    | zero => rfl
    | succ k ih => rw [Function.iterate_succ_apply']; rw [ih]; rfl
  exact ⟨rfl, h, by rw [h]; rfl⟩

end BluetoothModule

namespace TFTDisplay

/-- C13: `toggleThresholdDisplay()` negates `showThresholds` and changes no other
field, issues no primitive, and applied twice gives back the state; the
primitives `displayData` issues for a sample are the same for either value `b`
of `showThresholds`. -/
theorem toggleThresholdDisplay_spec (d : TFTDisplay) (t h : ℚ) (b : Bool) :
    d.toggleThresholdDisplay = { d with showThresholds := !d.showThresholds } ∧
    issued d d.toggleThresholdDisplay = [] ∧
    d.toggleThresholdDisplay.toggleThresholdDisplay = d ∧
    issued { d with showThresholds := b }
        (displayData { d with showThresholds := b } t h) =
      issued d (d.displayData t h) := by
  refine ⟨rfl, by simp [issued, toggleThresholdDisplay], ?_, ?_⟩
  · cases d; simp [toggleThresholdDisplay]
  · rw [issued_displayData, issued_displayData]

/-- C14 (amended): for every bound `D` below 2^20 there are samples, all of
them binary32 values, each temperature within 0.1 of the preceding one and the
last more than `D` away from the first, such that displaying them in turn on a
fresh display, no call after the first issues the fill of the temperature box,
a `print` of a value, or any primitive that may paint a pixel of the
temperature box. -/
theorem deadband_drift (D : ℚ) (hD : D < 2 ^ 20) :
    ∃ (samples : List (ℚ × ℚ)) (first last : ℚ × ℚ),
      (∀ s ∈ samples, isF32 s.1 ∧ isF32 s.2) ∧
      samples.head? = some first ∧ samples.getLast? = some last ∧
      List.Chain' (fun a b : ℚ × ℚ => |b.1 - a.1| < 0.1) samples ∧
      |last.1 - first.1| > D ∧
      (displayEach fresh samples).length = samples.length ∧
      ∀ ps ∈ (displayEach fresh samples).tail,
        Prim.fillRect 40 45 60 20 ST7735_BLACK ∉ ps ∧
        (∀ v : ℚ, Prim.printFloat v 1 ∉ ps) ∧
        ∀ g : Gfx, g.paintsOver ps temperatureRegion = false := by
  have hfl : ⌊16 * max D 0⌋₊ < 2 ^ 24 := by
    rw [Nat.floor_lt (by positivity)]
    have : max D 0 < 2 ^ 20 := max_lt hD (by norm_num)
    push_cast
    linarith
  refine ⟨ramp 0 (⌊16 * max D 0⌋₊ + 1 + 1), (0, 50),
    (0 + ((⌊16 * max D 0⌋₊ + 1 : ℕ) : ℚ) / 16, 50), ?_, ramp_head _ _, ramp_getLast _ _,
    ramp_chain _ _, ?_, displayEach_length _ _, ?_⟩
  · intro p hp
    obtain ⟨i, hi, hpi⟩ := ramp_mem _ _ p hp
    rw [hpi]
    refine ⟨?_, isF32_fifty⟩
    simp only [zero_add]
    exact isF32_sixteenths i (by omega)
  · have h1 : 16 * D < (⌊16 * max D 0⌋₊ : ℚ) + 1 :=
      lt_of_le_of_lt (mul_le_mul_of_nonneg_left (le_max_left D 0) (by norm_num))
        (Nat.lt_floor_add_one _)
    show |(0 : ℚ) + ((⌊16 * max D 0⌋₊ + 1 : ℕ) : ℚ) / 16 - 0| > D
    rw [sub_zero, zero_add, abs_of_nonneg (by positivity)]
    push_cast
    linarith
  · intro ps hps
    have h : (displayEach fresh (ramp 0 (⌊16 * max D 0⌋₊ + 1 + 1))).tail =
        displayEach (fresh.displayData 0 50) (ramp (0 + 1 / 16) (⌊16 * max D 0⌋₊ + 1)) := rfl
    rw [h] at hps
    have hq := displayEach_ramp_quiet _ (0 + 1 / 16) (fresh.displayData 0 50)
      (by norm_num [displayData_eq]) (by simp [displayData_eq])
      (by simp [displayData_eq]) ps hps
    subst hq
    exact ⟨List.not_mem_nil _, fun v => List.not_mem_nil _, fun g => rfl⟩

/-- C14 witness: the bound 1000. -/
theorem deadband_drift_witness :
    (1000 : ℚ) < 2 ^ 20 ∧
    ∃ (samples : List (ℚ × ℚ)) (first last : ℚ × ℚ),
      (∀ s ∈ samples, isF32 s.1 ∧ isF32 s.2) ∧
      samples.head? = some first ∧ samples.getLast? = some last ∧
      List.Chain' (fun a b : ℚ × ℚ => |b.1 - a.1| < 0.1) samples ∧
      |last.1 - first.1| > 1000 ∧
      (displayEach fresh samples).length = samples.length ∧
      ∀ ps ∈ (displayEach fresh samples).tail,
        Prim.fillRect 40 45 60 20 ST7735_BLACK ∉ ps ∧
        (∀ v : ℚ, Prim.printFloat v 1 ∉ ps) ∧
        ∀ g : Gfx, g.paintsOver ps temperatureRegion = false :=
  ⟨by norm_num, deadband_drift 1000 (by norm_num)⟩

/-- C14 counterexample: no sequence of binary32 temperatures, each within 0.1
of the preceding one, ends more than 2^21 away from where it starts: beyond
2^20 in magnitude the binary32 values are 0.125 or more apart. -/
theorem deadband_drift_bounded :
    ¬ ∃ (samples : List (ℚ × ℚ)) (first last : ℚ × ℚ),
      (∀ s ∈ samples, isF32 s.1) ∧
      samples.head? = some first ∧ samples.getLast? = some last ∧
      List.Chain' (fun a b : ℚ × ℚ => |b.1 - a.1| < 0.1) samples ∧
      |last.1 - first.1| > 2 ^ 21 := by
  rintro ⟨samples, first, last, hf, hhead, hlast, hchain, hgt⟩
  cases samples with
  | nil => simp at hhead
  | cons a l =>
    have ha : a = first := by simpa using hhead
    subst ha
    obtain ⟨h1, h2⟩ := chain_stays l a hchain hf last hlast
    rcases le_or_lt |a.1| (2 ^ 20) with hsmall | hbig
    · have hl := h1 hsmall
      have := abs_sub last.1 a.1
      linarith
    · rw [h2 hbig, sub_self, abs_zero] at hgt
      norm_num at hgt

/-- C15 (amended): in a state whose `lastTemperature` is not below -50, a sample
whose temperature fails the deadband test of the code (the `float` difference
to `lastTemperature`, in absolute value, is not below the `float` 0.1) and whose
humidity passes it makes `displayData` issue exactly `setTextSize(2)`,
`setTextColor(colour)`, `fillRect(40, 45, 60, 20, BLACK)`, `setCursor(40, 50)`,
`print(temperature, 1)`; with the roles exchanged it issues exactly the same
five for the humidity, with `fillRect(40, 95, 60, 20, BLACK)` and
`setCursor(40, 100)`. -/
theorem displayData_single_field (d : TFTDisplay) (t h : ℚ)
    (hshown : ¬ d.lastTemperature < -50) :
    (¬ |fsub t d.lastTemperature| < round32 0.1 → |fsub h d.lastHumidity| < round32 0.1 →
      issued d (d.displayData t h) =
        [Prim.setTextSize 2,
         Prim.setTextColor (if t < d.tempThresholdMin ∨ t > d.tempThresholdMax
           then ST7735_RED else ST7735_WHITE),
         Prim.fillRect 40 45 60 20 ST7735_BLACK, Prim.setCursor 40 50, Prim.printFloat t 1]) ∧
    (|fsub t d.lastTemperature| < round32 0.1 → ¬ |fsub h d.lastHumidity| < round32 0.1 →
      issued d (d.displayData t h) =
        [Prim.setTextSize 2,
         Prim.setTextColor (if h < d.humThresholdMin ∨ h > d.humThresholdMax
           then ST7735_RED else ST7735_WHITE),
         Prim.fillRect 40 95 60 20 ST7735_BLACK, Prim.setCursor 40 100, Prim.printFloat h 1]) := by
  constructor
  · intro ht hh
    rw [issued_displayData]
    simp [hshown, abs_eq_abs_value, ht, hh, fieldPrims]
  · intro ht hh
    rw [issued_displayData]
    simp [hshown, abs_eq_abs_value, ht, hh, fieldPrims]

/-- C15 witness: last sample (21.5, 60.25), new sample (25, 60.3125). -/
theorem displayData_single_field_witness :
    (¬ ({ fresh with lastTemperature := 21.5, lastHumidity := 60.25 } : TFTDisplay).lastTemperature
        < -50 ∧
      ¬ |fsub 25
        ({ fresh with lastTemperature := 21.5, lastHumidity := 60.25 } : TFTDisplay).lastTemperature|
        < round32 0.1 ∧
      |fsub (60.25 + 1 / 16)
        ({ fresh with lastTemperature := 21.5, lastHumidity := 60.25 } : TFTDisplay).lastHumidity|
        < round32 0.1) ∧
    issued { fresh with lastTemperature := 21.5, lastHumidity := 60.25 }
        (displayData { fresh with lastTemperature := 21.5, lastHumidity := 60.25 }
          25 (60.25 + 1 / 16)) =
      [Prim.setTextSize 2, Prim.setTextColor ST7735_WHITE,
       Prim.fillRect 40 45 60 20 ST7735_BLACK, Prim.setCursor 40 50, Prim.printFloat 25 1] := by
  have h1 : ¬ |fsub 25
      ({ fresh with lastTemperature := 21.5, lastHumidity := 60.25 } : TFTDisplay).lastTemperature|
      < round32 0.1 := fsub_deadband_fails _ _ (by norm_num [abs_lt])
  have h2 : |fsub (60.25 + 1 / 16)
      ({ fresh with lastTemperature := 21.5, lastHumidity := 60.25 } : TFTDisplay).lastHumidity|
      < round32 0.1 := by rw [fsub_step]; exact sixteenth_lt_tenth
  have h := (displayData_single_field
    { fresh with lastTemperature := 21.5, lastHumidity := 60.25 } 25 (60.25 + 1 / 16)
    (by norm_num)).1 h1 h2
  refine ⟨⟨by norm_num, h1, h2⟩, ?_⟩
  rw [h]
  norm_num [fresh]

/-- C15 counterexample: after the sample (20, 0.01f) the sample (25, 0.11f) has
a temperature 5 away and a humidity less than 0.1 away from the last one, both
binary32 values; the `float` difference of the humidities is 0.1f, so the
humidity is repainted as well and ten primitives are issued. -/
theorem displayData_single_field_rounding :
    (isF32 (5368709 / 536870912) ∧ isF32 (7381975 / 67108864) ∧
      ¬ ({ fresh with lastTemperature := 20, lastHumidity := 5368709 / 536870912 }
          : TFTDisplay).lastTemperature < -50 ∧
      ¬ |(25 : ℚ) - ({ fresh with lastTemperature := 20, lastHumidity := 5368709 / 536870912 }
          : TFTDisplay).lastTemperature| < 0.1 ∧
      |(7381975 : ℚ) / 67108864 -
        ({ fresh with lastTemperature := 20, lastHumidity := 5368709 / 536870912 }
          : TFTDisplay).lastHumidity| < 0.1) ∧
    issued { fresh with lastTemperature := 20, lastHumidity := 5368709 / 536870912 }
        (displayData { fresh with lastTemperature := 20, lastHumidity := 5368709 / 536870912 }
          25 (7381975 / 67108864)) =
      [Prim.setTextSize 2, Prim.setTextColor ST7735_WHITE,
       Prim.fillRect 40 45 60 20 ST7735_BLACK, Prim.setCursor 40 50, Prim.printFloat 25 1,
       Prim.setTextSize 2, Prim.setTextColor ST7735_RED,
       Prim.fillRect 40 95 60 20 ST7735_BLACK, Prim.setCursor 40 100,
       Prim.printFloat (7381975 / 67108864) 1] := by
  refine ⟨⟨isF32_hundredth, isF32_eleven_hundredths, by norm_num, by norm_num [abs_lt],
    fsub_near_tenth.1⟩, ?_⟩
  have ht : ¬ |fsub 25 20| < round32 0.1 := fsub_deadband_fails _ _ (by norm_num [abs_lt])
  rw [issued_displayData]
  have h1 : ¬ ((20 : ℚ) < -50) := by norm_num
  simp only [h1, if_false, abs_eq_abs_value, ht, fsub_near_tenth.2,
    abs_of_pos tenth_pos, lt_irrefl, List.nil_append]
  norm_num [fieldPrims, fresh]

end TFTDisplay

namespace BluetoothModule

/-- C17: after any sequence of steps from a fresh module (bytes arriving, and
calls of `begin`, `sendData`, `checkCommand`, `getCommand`, `sendResponse`,
`connectionStatus`, `updateConnectionStatus`), `receivedCommand` holds no
newline. -/
theorem receivedCommand_no_newline (steps : List Action) :
    '\n' ∉ (run fresh steps).receivedCommand := by
  have key : ∀ (l : List Action) (m : BluetoothModule),
      '\n' ∉ m.receivedCommand → '\n' ∉ (run m l).receivedCommand := by
    intro l
    induction l with
    | nil => intro m h; exact h
    | cons a l ih => intro m h; exact ih (step m a) (step_no_newline_kept m a h)
  exact key steps fresh (List.not_mem_nil _)

end BluetoothModule

namespace TFTDisplay

/-- C18 (amended): `displayMessage` clears the banner box (0, 60, 160, 20), then
sets the cursor, colour and size and prints the message; the banner box does
not meet the humidity value box and does meet the temperature value box;
`lastTemperature`, `lastHumidity`, the four thresholds and `showThresholds` are
as before. -/
theorem displayMessage_banner (d : TFTDisplay) (message : Str) (color : Color) :
    issued d (d.displayMessage message color) =
      [Prim.fillRect bannerRegion.x bannerRegion.y bannerRegion.w bannerRegion.h ST7735_BLACK,
       Prim.setCursor 5 70, Prim.setTextColor color, Prim.setTextSize 1, Prim.print message] ∧
    bannerRegion.meets humidityRegion = false ∧
    bannerRegion.meets temperatureRegion = true ∧
    (d.displayMessage message color).lastTemperature = d.lastTemperature ∧
    (d.displayMessage message color).lastHumidity = d.lastHumidity ∧
    (d.displayMessage message color).tempThresholdMin = d.tempThresholdMin ∧
    (d.displayMessage message color).tempThresholdMax = d.tempThresholdMax ∧
    (d.displayMessage message color).humThresholdMin = d.humThresholdMin ∧
    (d.displayMessage message color).humThresholdMax = d.humThresholdMax ∧
    (d.displayMessage message color).showThresholds = d.showThresholds := by
  refine ⟨by simp [issued, displayMessage, call, bannerRegion], by decide, by decide, ?_⟩
  simp [displayMessage, call]

/-- C18 counterexample: `displayMessage` issues `fillRect(0, 60, 160, 20, BLACK)`,
and that rectangle (rows 60..79) meets the temperature value box
(40, 45, 60, 20), rows 45..64. -/
theorem displayMessage_banner_overlaps_temperature :
    Prim.fillRect 0 60 160 20 ST7735_BLACK ∈
      issued fresh (fresh.displayMessage "Hi".toList ST7735_WHITE) ∧
    Rect.meets { x := 0, y := 60, w := 160, h := 20 } { x := 40, y := 45, w := 60, h := 20 }
      = true := by
  refine ⟨?_, by decide⟩
  simp [issued, displayMessage, call, fresh]

end TFTDisplay

namespace DHT22Sensor

/-- C19: `readData()` returns `true` exactly when `isInitialized` is set and
neither raw reading is NaN; on `true` the stored temperature and humidity are
the raw readings, on `false` they are as before; `isInitialized` is left alone,
is `false` after the constructor and `true` after `begin()`. -/
theorem readData_spec (s : DHT22Sensor) (h t : RawFloat) :
    ((s.readData h t).1 = true ↔
      s.isInitialized = true ∧ isnan h = false ∧ isnan t = false) ∧
    ((s.readData h t).1 = true →
      (s.readData h t).2.temperature = t ∧ (s.readData h t).2.humidity = h) ∧
    ((s.readData h t).1 = false →
      (s.readData h t).2.temperature = s.temperature ∧
      (s.readData h t).2.humidity = s.humidity) ∧
    (s.readData h t).2.isInitialized = s.isInitialized ∧
    fresh.isInitialized = false ∧ s.begin.isInitialized = true := by
  unfold readData
  cases hi : s.isInitialized <;> cases hh : isnan h <;> cases ht : isnan t <;>
    simp [hi, hh, ht, fresh, begin]

/-- C19 witness: after `begin()` the readings (60.2, 21.5) are stored and the
result is `true`; without `begin()`, or with a NaN humidity, it is `false`. -/
theorem readData_spec_witness :
    (fresh.begin.readData (RawFloat.value 60.2) (RawFloat.value 21.5)).1 = true ∧
    (fresh.begin.readData (RawFloat.value 60.2) (RawFloat.value 21.5)).2.temperature =
      RawFloat.value 21.5 ∧
    (fresh.begin.readData (RawFloat.value 60.2) (RawFloat.value 21.5)).2.humidity =
      RawFloat.value 60.2 ∧
    (fresh.readData (RawFloat.value 60.2) (RawFloat.value 21.5)).1 = false ∧
    (fresh.begin.readData RawFloat.nan (RawFloat.value 21.5)).1 = false :=
  ⟨(readData_spec fresh.begin (RawFloat.value 60.2) (RawFloat.value 21.5)).1.2 ⟨rfl, rfl, rfl⟩,
    ((readData_spec fresh.begin (RawFloat.value 60.2) (RawFloat.value 21.5)).2.1
      ((readData_spec fresh.begin (RawFloat.value 60.2) (RawFloat.value 21.5)).1.2
        ⟨rfl, rfl, rfl⟩)).1,
    ((readData_spec fresh.begin (RawFloat.value 60.2) (RawFloat.value 21.5)).2.1
      ((readData_spec fresh.begin (RawFloat.value 60.2) (RawFloat.value 21.5)).1.2
        ⟨rfl, rfl, rfl⟩)).2,
    rfl, rfl⟩

end DHT22Sensor

end GyAi
